import Mathlib

/-!
# randomcolor: constrained random HSB colours

A shallow embedding of `randomcolor.go`.

* Go's `int` is modelled by `Int`.  On every path that starts from an `Options`
  whose `Color` is nil or points at one of the eight package-level families all
  intermediate values stay far below `2^63`, so no wrap-around is involved.
* The `float64` fields `H`, `S`, `B` of a `Color` in the table or returned by `NewColor`
  only ever receive `float64(n)` for a small integer `n`; that conversion is exact, so
  these fields are modelled by the integer they hold.
* `RGBA` reads only the three fields `H`, `S`, `B`, and a caller can store any float64 in
  them, so it is modelled as a function of three rationals, the float64 values of the
  fields; `IsFloat64` singles out the rationals that are float64 values.
* The float64 arithmetic of `RGBA` is modelled on the rationals: every operation is the
  exact operation followed by `fl`, the IEEE 754 binary64 rounding to nearest, ties to
  even, subnormal numbers included.  Operations are rounded one by one (no fused
  multiply-add), and overflow to infinity is not represented; no value of `RGBA` comes
  near it.
* `*Color` is modelled by `ColorPtr`: the address of one of the eight package-level
  variables, or a pointer to some other `Color` value.  Pointer comparison
  (`options.Color == &Monochrome`) is comparison of these addresses.
* The process-wide generator behind `rand.Intn` is an explicit stream of raw draws
  that is threaded through every call; `rand.Intn n` panics for `n ≤ 0` and
  otherwise yields the next raw draw reduced into `[0, n)`.
* A run-time panic (index out of range, integer division by zero, `rand.Intn` on a
  non-positive argument) is the result `none`.
-/

namespace Randomcolor

/-- Go `type Range [2]int`; `r0` is index 0 and `r1` is index 1. -/
structure Range where
  r0 : Int
  r1 : Int
  deriving DecidableEq, Repr

/-- Go `type Color struct`. -/
structure Color where
  H : Int
  S : Int
  B : Int
  HueRange : Range
  LowerBounds : List Range
  deriving DecidableEq, Repr

def Monochrome : Color :=
  { H := 0, S := 0, B := 0, HueRange := ⟨0, 0⟩, LowerBounds := [⟨0, 0⟩, ⟨100, 0⟩] }

def Red : Color :=
  { H := 0, S := 0, B := 0, HueRange := ⟨-26, 18⟩,
    LowerBounds := [⟨20, 100⟩, ⟨30, 92⟩, ⟨40, 89⟩, ⟨50, 85⟩, ⟨60, 78⟩, ⟨70, 70⟩, ⟨80, 60⟩,
      ⟨90, 55⟩, ⟨100, 50⟩] }

def Orange : Color :=
  { H := 0, S := 0, B := 0, HueRange := ⟨19, 46⟩,
    LowerBounds := [⟨20, 100⟩, ⟨30, 93⟩, ⟨40, 88⟩, ⟨50, 86⟩, ⟨60, 85⟩, ⟨70, 70⟩, ⟨100, 70⟩] }

def Yellow : Color :=
  { H := 0, S := 0, B := 0, HueRange := ⟨47, 62⟩,
    LowerBounds := [⟨25, 100⟩, ⟨40, 94⟩, ⟨50, 89⟩, ⟨60, 86⟩, ⟨70, 84⟩, ⟨80, 82⟩, ⟨90, 80⟩,
      ⟨100, 75⟩] }

def Green : Color :=
  { H := 0, S := 0, B := 0, HueRange := ⟨63, 178⟩,
    LowerBounds := [⟨30, 100⟩, ⟨40, 90⟩, ⟨50, 85⟩, ⟨60, 81⟩, ⟨70, 74⟩, ⟨80, 64⟩, ⟨90, 50⟩,
      ⟨100, 40⟩] }

def Blue : Color :=
  { H := 0, S := 0, B := 0, HueRange := ⟨179, 257⟩,
    LowerBounds := [⟨20, 100⟩, ⟨30, 86⟩, ⟨40, 80⟩, ⟨50, 74⟩, ⟨60, 60⟩, ⟨70, 52⟩, ⟨80, 44⟩,
      ⟨90, 39⟩, ⟨100, 35⟩] }

def Purple : Color :=
  { H := 0, S := 0, B := 0, HueRange := ⟨258, 282⟩,
    LowerBounds := [⟨20, 100⟩, ⟨30, 87⟩, ⟨40, 79⟩, ⟨50, 70⟩, ⟨60, 65⟩, ⟨70, 59⟩, ⟨80, 52⟩,
      ⟨90, 45⟩, ⟨100, 42⟩] }

def Pink : Color :=
  { H := 0, S := 0, B := 0, HueRange := ⟨283, 334⟩,
    LowerBounds := [⟨20, 100⟩, ⟨30, 90⟩, ⟨40, 86⟩, ⟨60, 84⟩, ⟨80, 80⟩, ⟨90, 75⟩, ⟨100, 73⟩] }

/-- Go `var colors = []Color{Monochrome, Red, Orange, Yellow, Green, Blue, Purple, Pink}`. -/
def colors : List Color := [Monochrome, Red, Orange, Yellow, Green, Blue, Purple, Pink]

/-- A value of Go type `*Color` other than nil: the address of one of the eight
package-level variables, or a pointer to some other `Color` value. -/
inductive ColorPtr where
  | monochrome
  | red
  | orange
  | yellow
  | green
  | blue
  | purple
  | pink
  | other (c : Color)
  deriving DecidableEq, Repr

/-- Dereference of a `*Color`. -/
def ColorPtr.deref : ColorPtr → Color
  | .monochrome => Monochrome
  | .red => Red
  | .orange => Orange
  | .yellow => Yellow
  | .green => Green
  | .blue => Blue
  | .purple => Purple
  | .pink => Pink
  | .other c => c

/-- The addresses `&Monochrome, &Red, ..., &Pink`, in the order of `colors`. -/
def tablePtrs : List ColorPtr :=
  [.monochrome, .red, .orange, .yellow, .green, .blue, .purple, .pink]

/-- Go `type Options struct`; `Color` is `none` for a nil pointer. -/
structure Options where
  Hue : Int
  Luminosity : String
  Color : Option ColorPtr
  saturation : Int

/-- The stream of raw draws of the process-wide generator. -/
abbrev Rng := Nat → Nat

/-- Go `rand.Intn(n)`: panics when `n <= 0`, otherwise returns a value of `[0, n)` and
advances the generator. -/
def Intn (n : Int) (g : Rng) : Option (Int × Rng) :=
  if n ≤ 0 then none else some (((g 0 : Nat) : Int) % n, fun i => g (i + 1))

/-- Go `randWithin`: `r[0] + rand.Intn(r[1]+1-r[0])`. -/
def randWithin (r : Range) (g : Rng) : Option (Int × Rng) :=
  match Intn (r.r1 + 1 - r.r0) g with
  | none => none
  | some (k, g1) => some (r.r0 + k, g1)

/-- Go `Color.SaturationRange`: indexing an empty `LowerBounds` panics. -/
def Color.SaturationRange (c : Color) : Option Range :=
  match c.LowerBounds.head?, c.LowerBounds.getLast? with
  | some first, some last => some ⟨first.r0, last.r0⟩
  | _, _ => none

/-- Go `Color.BrightnessRange`: indexing an empty `LowerBounds` panics. -/
def Color.BrightnessRange (c : Color) : Option Range :=
  match c.LowerBounds.getLast?, c.LowerBounds.head? with
  | some last, some first => some ⟨last.r1, first.r1⟩
  | _, _ => none

/-- Go `ColorInfo`: fold hues of `[334, 360]` below zero, then return the first entry of
`colors` whose hue range contains the hue, and `Monochrome` when there is none. -/
def ColorInfo (hue : Int) : Color :=
  let hue := if hue ≥ 334 ∧ hue ≤ 360 then hue - 360 else hue
  (colors.find? (fun color => decide (hue ≥ color.HueRange.r0 ∧ hue ≤ color.HueRange.r1))).getD
    Monochrome

/-- Go `Options.HueRange`. -/
def Options.HueRange (o : Options) : Range :=
  match o.Color with
  | some p => p.deref.HueRange
  | none => if o.Hue < 360 ∧ o.Hue > 0 then ⟨o.Hue, o.Hue⟩ else ⟨0, 360⟩

/-- Go `Options.SaturationRange`. -/
def Options.SaturationRange (o : Options) : Option Range :=
  match o.Color with
  | some p => p.deref.SaturationRange
  | none => (ColorInfo o.Hue).SaturationRange

/-- The `for` loop of Go `Options.MinimumBrightness` over consecutive curve points, with
the trailing `return 0`; `/` is Go's truncating division and panics on a zero divisor. -/
def minimumBrightnessLoop (saturation : Int) : List Range → Option Int
  | p1 :: p2 :: rest =>
    if saturation ≥ p1.r0 ∧ saturation ≤ p2.r0 then
      if p2.r0 - p1.r0 = 0 then none
      else
        let m := (p2.r1 - p1.r1).tdiv (p2.r0 - p1.r0)
        let b := p1.r1 - m * p1.r0
        some (m * saturation + b)
    else minimumBrightnessLoop saturation (p2 :: rest)
  | _ => some 0

/-- The curve `Options.MinimumBrightness` interpolates: the selected colour's, or the one
looked up from the hue. -/
def Options.lowerBounds (o : Options) : List Range :=
  match o.Color with
  | some p => p.deref.LowerBounds
  | none => (ColorInfo o.Hue).LowerBounds

/-- Go `Options.MinimumBrightness`. -/
def Options.MinimumBrightness (o : Options) : Option Int :=
  minimumBrightnessLoop o.saturation o.lowerBounds

/-- Go `setHue`. -/
def setHue (options : Options) (g : Rng) : Option (Int × Rng) :=
  match randWithin options.HueRange g with
  | none => none
  | some (hue, g1) => some (if hue < 0 then 360 + hue else hue, g1)

/-- Go `setSaturation`. -/
def setSaturation (options : Options) (g : Rng) : Option (Int × Rng) :=
  if options.Color = some ColorPtr.monochrome then some (0, g)
  else
    match options.SaturationRange with
    | none => none
    | some saturationRange =>
      let sMin := saturationRange.r0
      let sMax := saturationRange.r1
      if options.Luminosity = "bright" then randWithin ⟨55, sMax⟩ g
      else if options.Luminosity = "dark" then randWithin ⟨sMax - 10, sMax⟩ g
      else if options.Luminosity = "light" then randWithin ⟨sMin, 55⟩ g
      else if options.Luminosity = "random" then randWithin ⟨0, 100⟩ g
      else randWithin ⟨sMin, sMax⟩ g

/-- Go `setBrightness`. -/
def setBrightness (options : Options) (g : Rng) : Option (Int × Rng) :=
  match options.MinimumBrightness with
  | none => none
  | some bMin =>
    let bMax : Int := 100
    if options.Luminosity = "dark" then randWithin ⟨bMin, bMin + 20⟩ g
    else if options.Luminosity = "light" then randWithin ⟨(bMax + bMin).tdiv 2, bMax⟩ g
    else if options.Luminosity = "bright" then randWithin ⟨bMin, bMax⟩ g
    else randWithin ⟨0, 100⟩ g

/-- Go `NewColor`: the returned `Color{}` has only `H`, `S` and `B` assigned; the other
fields keep their zero values.  The generator state after the call is returned too. -/
def NewColor (options : Options) (g : Rng) : Option (Color × Rng) :=
  match setHue options g with
  | none => none
  | some (hue, g1) =>
    let options1 := { options with Hue := hue }
    match setSaturation options1 g1 with
    | none => none
    | some (saturation, g2) =>
      let options2 := { options1 with saturation := saturation }
      match setBrightness options2 g2 with
      | none => none
      | some (brightness, g3) =>
        some ({ H := hue, S := saturation, B := brightness, HueRange := ⟨0, 0⟩,
                LowerBounds := [] }, g3)

/-- A generator whose first raw draws are the given list, followed by zeros. -/
def draws (l : List Nat) : Rng := fun i => l.getD i 0

/-- The `(H, S, B)` triple of a successful `NewColor` call. -/
def hsb (r : Option (Color × Rng)) : Option (Int × Int × Int) :=
  r.map (fun p => (p.1.H, p.1.S, p.1.B))


/-! ## The float64 arithmetic and the conversion to RGB -/

/-- Rounding of a rational to the nearest integer, ties to the even one. -/
def roundHalfEven (q : ℚ) : ℤ :=
  if q - ⌊q⌋ < 1 / 2 then ⌊q⌋
  else if 1 / 2 < q - ⌊q⌋ then ⌊q⌋ + 1
  else if ⌊q⌋ % 2 = 0 then ⌊q⌋ else ⌊q⌋ + 1

/-- The binary exponent of the last place of the float64 nearest to `q`: 52 below the
binary exponent of `q`, and -1074, that of the subnormal numbers, at least. -/
def ulpExp (q : ℚ) : ℤ := max (Int.log 2 |q|) (-1022) - 52

/-- IEEE 754 binary64 rounding to nearest, ties to even, of the exact result `q` of an
operation (overflow to infinity is not represented). -/
def fl (q : ℚ) : ℚ := (roundHalfEven (q / 2 ^ ulpExp q) : ℚ) * 2 ^ ulpExp q


/-- Go `uint32(x)` of a float64 that holds the integer `x`: the language defines the
result only when the value fits the type; otherwise the result is `none` here. -/
def toUint32 (x : ℤ) : Option ℕ := if 0 ≤ x ∧ x < 2 ^ 32 then some x.toNat else none

/-- The `switch h_i` of Go `RGBA`, with the initial `256.0` triple when no case matches. -/
def rgbFractions (h_i : ℤ) (v p q t : ℚ) : ℚ × ℚ × ℚ :=
  if h_i = 0 then (v, t, p)
  else if h_i = 1 then (q, v, p)
  else if h_i = 2 then (p, v, t)
  else if h_i = 3 then (p, q, v)
  else if h_i = 4 then (t, p, v)
  else if h_i = 5 then (v, p, q)
  else (256, 256, 256)

/-- A rational number that is a float64 value: rounding leaves it unchanged. -/
def IsFloat64 (x : ℚ) : Prop := fl x = x

/-- The value of `h` in Go `RGBA` after the substitutions `0 -> 1`, `360 -> 359` and the
division by 360; `H` is the float64 value of the field `c.H`. -/
def hueFraction (H : ℚ) : ℚ :=
  let h := if H = 0 then 1 else H
  let h := if h = 360 then 359 else h
  fl (h / 360)

/-- The value of `h_i` in Go `RGBA`: `math.Floor(h * 6)`. -/
def sector (H : ℚ) : ℤ := ⌊fl (hueFraction H * 6)⌋

/-- The computation of `r2, g2, b2` in Go `RGBA` (all of it up to the `switch`) from the
float64 values `H`, `S`, `B` of the fields `c.H`, `c.S`, `c.B`; every float64 operation is
the exact operation followed by `fl`. -/
def fractions (H S B : ℚ) : ℚ × ℚ × ℚ :=
  let h := hueFraction H
  let s := fl (S / 100)
  let v := fl (B / 100)
  let h_i : ℤ := ⌊fl (h * 6)⌋
  let f := fl (fl (h * 6) - h_i)
  let p := fl (v * fl (1 - s))
  let q := fl (v * fl (1 - fl (f * s)))
  let t := fl (v * fl (1 - fl (fl (1 - f) * s)))
  rgbFractions h_i v p q t

/-- Go `(c *Color) RGBA()` as a function of the float64 values `H`, `S`, `B` of the fields
`c.H`, `c.S`, `c.B`, the only fields it reads: each of `r2, g2, b2` times 255, floored and
converted to `uint32`, and the alpha `1`. -/
def RGBA (H S B : ℚ) : Option (ℕ × ℕ × ℕ × ℕ) :=
  match toUint32 ⌊fl ((fractions H S B).1 * 255)⌋, toUint32 ⌊fl ((fractions H S B).2.1 * 255)⌋,
      toUint32 ⌊fl ((fractions H S B).2.2 * 255)⌋ with
  | some r, some g, some b => some (r, g, b, 1)
  | _, _, _ => none

/-- The float64 value written `6.666666666666666`. -/
def sampleBrightness : ℚ := 3752999689475413 / 2 ^ 49

/-! ## Restatements used in the statements -/

/-- The minimum brightness in the words of the specification: take the first pair of
consecutive curve points `(s1, v1)`, `(s2, v2)` with `s1 ≤ S ≤ s2` and return
`v1 + ((v2 - v1) / (s2 - s1)) * (S - s1)` with truncating division; return `0` when no
pair contains `S`. -/
def minimumBrightnessSpec (S : Int) (curve : List Range) : Int :=
  match (curve.zip curve.tail).find? (fun seg => decide (seg.1.r0 ≤ S ∧ S ≤ seg.2.r0)) with
  | some (p1, p2) => p1.r1 + ((p2.r1 - p1.r1).tdiv (p2.r0 - p1.r0)) * (S - p1.r0)
  | none => 0

/-- The normalisation and the loop of Go `ColorInfo`: the entry the loop returns, and `none`
when the loop ends without a match, which is when the trailing `return Monochrome` runs. -/
def ColorInfo.loop (hue : Int) : Option Color :=
  let hue := if hue ≥ 334 ∧ hue ≤ 360 then hue - 360 else hue
  colors.find? (fun color => decide (hue ≥ color.HueRange.r0 ∧ hue ≤ color.HueRange.r1))

/-- The `Range` that Go `setSaturation` passes to `randWithin`; `none` when it returns `0`
for `&Monochrome` without a call, and when `SaturationRange()` panics. -/
def setSaturationArg (options : Options) : Option Range :=
  if options.Color = some ColorPtr.monochrome then none
  else
    match options.SaturationRange with
    | none => none
    | some saturationRange =>
      let sMin := saturationRange.r0
      let sMax := saturationRange.r1
      if options.Luminosity = "bright" then some ⟨55, sMax⟩
      else if options.Luminosity = "dark" then some ⟨sMax - 10, sMax⟩
      else if options.Luminosity = "light" then some ⟨sMin, 55⟩
      else if options.Luminosity = "random" then some ⟨0, 100⟩
      else some ⟨sMin, sMax⟩

/-- The `Range` that Go `setBrightness` passes to `randWithin`; `none` when
`MinimumBrightness()` panics. -/
def setBrightnessArg (options : Options) : Option Range :=
  match options.MinimumBrightness with
  | none => none
  | some bMin =>
    let bMax : Int := 100
    if options.Luminosity = "dark" then some ⟨bMin, bMin + 20⟩
    else if options.Luminosity = "light" then some ⟨(bMax + bMin).tdiv 2, bMax⟩
    else if options.Luminosity = "bright" then some ⟨bMin, bMax⟩
    else some ⟨0, 100⟩

/-! ## Predicates used in the statements -/

/-- The options the palette is built for: no colour selected, or the address of one of
the eight package-level families. -/
def Options.FromTable (o : Options) : Prop :=
  o.Color = none ∨ ∃ p ∈ tablePtrs, o.Color = some p

/-- A lower-bound curve is well formed when saturations strictly increase, brightness
never increases from one point to the next, and every brightness lies in `[0, 100]`. -/
def CurveOk : List Range → Prop
  | p1 :: p2 :: rest =>
    (p1.r0 < p2.r0 ∧ p2.r1 ≤ p1.r1 ∧ 0 ≤ p1.r1 ∧ p1.r1 ≤ 100) ∧ CurveOk (p2 :: rest)
  | [p] => 0 ≤ p.r1 ∧ p.r1 ≤ 100
  | [] => True

/-- Whether the stored hue range of `c` contains the degree `d` or its folded form
`d - 360`. -/
def Color.coversDegree (c : Color) (d : Int) : Bool :=
  decide ((c.HueRange.r0 ≤ d ∧ d ≤ c.HueRange.r1) ∨
    (c.HueRange.r0 ≤ d - 360 ∧ d - 360 ≤ c.HueRange.r1))

/-! ## Sampling -/

theorem randWithin_total (r : Range) (g : Rng) (h : r.r0 ≤ r.r1) :
    ∃ v g1, randWithin r g = some (v, g1) ∧ r.r0 ≤ v ∧ v ≤ r.r1 := by
  have hn : ¬ (r.r1 + 1 - r.r0 ≤ 0) := by omega
  have h1 := Int.emod_nonneg ((g 0 : Nat) : Int) (show r.r1 + 1 - r.r0 ≠ 0 by omega)
  have h2 := Int.emod_lt_of_pos ((g 0 : Nat) : Int) (show 0 < r.r1 + 1 - r.r0 by omega)
  refine ⟨r.r0 + ((g 0 : Nat) : Int) % (r.r1 + 1 - r.r0), fun i => g (i + 1), ?_, ?_, ?_⟩
  · simp [randWithin, Intn, hn]
  · omega
  · omega

theorem randWithin_range (r : Range) (g g1 : Rng) (v : Int)
    (h : randWithin r g = some (v, g1)) : r.r0 ≤ v ∧ v ≤ r.r1 := by
  unfold randWithin Intn at h
  by_cases hn : r.r1 + 1 - r.r0 ≤ 0
  · simp [hn] at h
  · simp only [hn, if_false] at h
    have h1 := Int.emod_nonneg ((g 0 : Nat) : Int) (show r.r1 + 1 - r.r0 ≠ 0 by omega)
    have h2 := Int.emod_lt_of_pos ((g 0 : Nat) : Int) (show 0 < r.r1 + 1 - r.r0 by omega)
    simp only [Option.some.injEq, Prod.mk.injEq] at h
    obtain ⟨hv, _⟩ := h
    omega

/-! ## The palette table -/

theorem colors_curveOk (c : Color) (hc : c ∈ colors) : CurveOk c.LowerBounds := by
  simp only [colors, List.mem_cons, List.mem_singleton, List.not_mem_nil, or_false] at hc
  rcases hc with rfl | rfl | rfl | rfl | rfl | rfl | rfl | rfl <;>
    simp [CurveOk, Monochrome, Red, Orange, Yellow, Green, Blue, Purple, Pink]

theorem tdiv_slope (a d : Int) (ha : a ≤ 0) (hd : 0 < d) :
    a.tdiv d ≤ 0 ∧ a ≤ a.tdiv d * d := by
  obtain ⟨n, rfl⟩ : ∃ n : Int, a = -n := ⟨-a, by omega⟩
  have hn : 0 ≤ n := by omega
  rw [Int.neg_tdiv, Int.tdiv_eq_ediv hn (le_of_lt hd)]
  have h1 : 0 ≤ n / d := Int.ediv_nonneg hn (le_of_lt hd)
  have h2 : n / d * d ≤ n := Int.ediv_mul_le n (ne_of_gt hd)
  constructor
  · omega
  · linarith

theorem CurveOk_head (p : Range) (t : List Range) (h : CurveOk (p :: t)) :
    0 ≤ p.r1 ∧ p.r1 ≤ 100 := by
  cases t with
  | nil => exact h
  | cons q rest => exact ⟨h.1.2.2.1, h.1.2.2.2⟩

theorem minimumBrightnessLoop_bounds (s : Int) (l : List Range) (hl : CurveOk l) :
    ∃ b, minimumBrightnessLoop s l = some b ∧ 0 ≤ b ∧ b ≤ 100 := by
  induction l with
  | nil => exact ⟨0, by simp [minimumBrightnessLoop]⟩
  | cons p1 t ih =>
    cases t with
    | nil => exact ⟨0, by simp [minimumBrightnessLoop]⟩
    | cons p2 rest =>
      obtain ⟨⟨hs, hv, hp1⟩, htail⟩ := hl
      have hp2 := CurveOk_head p2 rest htail
      unfold minimumBrightnessLoop
      by_cases hseg : s ≥ p1.r0 ∧ s ≤ p2.r0
      · have hd : ¬ (p2.r0 - p1.r0 = 0) := by omega
        obtain ⟨hm0, hm1⟩ := tdiv_slope (p2.r1 - p1.r1) (p2.r0 - p1.r0) (by omega) (by omega)
        simp only [hseg, and_self, if_true, hd, if_false]
        refine ⟨_, rfl, ?_, ?_⟩
        · nlinarith [hseg.1, hseg.2]
        · nlinarith [hseg.1, hseg.2]
      · simp only [hseg, if_false]
        exact ih htail

theorem colors_saturationRange (c : Color) (hc : c ∈ colors) :
    ∃ sr, c.SaturationRange = some sr ∧ 0 ≤ sr.r0 ∧ sr.r0 ≤ 30 ∧ sr.r1 = 100 := by
  simp only [colors, List.mem_cons, List.mem_singleton, List.not_mem_nil, or_false] at hc
  rcases hc with rfl | rfl | rfl | rfl | rfl | rfl | rfl | rfl <;>
    exact ⟨_, rfl, by decide, by decide, rfl⟩

theorem ColorInfo_mem (hue : Int) : ColorInfo hue ∈ colors := by
  have key : ∀ (f : Color → Bool), (colors.find? f).getD Monochrome ∈ colors := by
    intro f
    cases hfind : colors.find? f with
    | none => simp [colors]
    | some c => exact List.mem_of_find?_eq_some hfind
  exact key _

theorem deref_mem (p : ColorPtr) (hp : p ∈ tablePtrs) : p.deref ∈ colors := by
  simp only [tablePtrs, List.mem_cons, List.mem_singleton, List.not_mem_nil, or_false] at hp
  rcases hp with rfl | rfl | rfl | rfl | rfl | rfl | rfl | rfl <;>
    simp [ColorPtr.deref, colors]

theorem FromTable_family (o : Options) (ho : o.FromTable) :
    ∃ c ∈ colors, o.SaturationRange = c.SaturationRange ∧ o.lowerBounds = c.LowerBounds := by
  rcases ho with hn | ⟨p, hp, hsome⟩
  · exact ⟨ColorInfo o.Hue, ColorInfo_mem _, by simp [Options.SaturationRange, hn],
      by simp [Options.lowerBounds, hn]⟩
  · exact ⟨p.deref, deref_mem p hp, by simp [Options.SaturationRange, hsome],
      by simp [Options.lowerBounds, hsome]⟩

/-! ## The three derivations -/

theorem setSaturation_spec (o : Options) (g : Rng) (sr : Range)
    (hm : o.Color ≠ some ColorPtr.monochrome) (hsr : o.SaturationRange = some sr)
    (h0 : sr.r0 ≤ 55) (h1 : 55 ≤ sr.r1) :
    ∃ s g1, setSaturation o g = some (s, g1) ∧
      (o.Luminosity = "bright" → 55 ≤ s ∧ s ≤ sr.r1) ∧
      (o.Luminosity = "dark" → sr.r1 - 10 ≤ s ∧ s ≤ sr.r1) ∧
      (o.Luminosity = "light" → sr.r0 ≤ s ∧ s ≤ 55) ∧
      (o.Luminosity = "random" → 0 ≤ s ∧ s ≤ 100) ∧
      (o.Luminosity ≠ "bright" → o.Luminosity ≠ "dark" → o.Luminosity ≠ "light" →
        o.Luminosity ≠ "random" → sr.r0 ≤ s ∧ s ≤ sr.r1) := by
  unfold setSaturation
  simp only [hm, if_false, hsr]
  by_cases hb : o.Luminosity = "bright"
  · obtain ⟨s, g1, hs, hlo, hhi⟩ := randWithin_total ⟨55, sr.r1⟩ g h1
    refine ⟨s, g1, by simp [hb, hs], fun _ => ⟨hlo, hhi⟩, ?_, ?_, ?_, ?_⟩ <;>
      simp [hb]
  by_cases hd : o.Luminosity = "dark"
  · obtain ⟨s, g1, hs, hlo, hhi⟩ := randWithin_total ⟨sr.r1 - 10, sr.r1⟩ g
      (show sr.r1 - 10 ≤ sr.r1 by omega)
    refine ⟨s, g1, by simp [hd, hs], ?_, fun _ => ⟨hlo, hhi⟩, ?_, ?_, ?_⟩ <;>
      simp [hd]
  by_cases hl : o.Luminosity = "light"
  · obtain ⟨s, g1, hs, hlo, hhi⟩ := randWithin_total ⟨sr.r0, 55⟩ g h0
    refine ⟨s, g1, by simp [hl, hs], ?_, ?_, fun _ => ⟨hlo, hhi⟩, ?_, ?_⟩ <;>
      simp [hl]
  by_cases hr : o.Luminosity = "random"
  · obtain ⟨s, g1, hs, hlo, hhi⟩ := randWithin_total ⟨0, 100⟩ g (by decide)
    refine ⟨s, g1, by simp [hr, hs], ?_, ?_, ?_, fun _ => ⟨hlo, hhi⟩, ?_⟩ <;>
      simp [hr]
  · obtain ⟨s, g1, hs, hlo, hhi⟩ := randWithin_total ⟨sr.r0, sr.r1⟩ g
      (show sr.r0 ≤ sr.r1 by omega)
    exact ⟨s, g1, by simp [hb, hd, hl, hr, hs], fun h => absurd h hb, fun h => absurd h hd,
      fun h => absurd h hl, fun h => absurd h hr, fun _ _ _ _ => ⟨hlo, hhi⟩⟩

theorem tdiv_two_le (x : Int) (hx : x ≤ 200) : x.tdiv 2 ≤ 100 := by
  rcases le_or_lt 0 x with h | h
  · rw [Int.tdiv_eq_ediv h (by decide)]; omega
  · obtain ⟨n, rfl⟩ : ∃ n : Int, x = -n := ⟨-x, by omega⟩
    have hn : 0 ≤ n := by omega
    rw [Int.neg_tdiv, Int.tdiv_eq_ediv hn (by decide)]; omega

theorem setBrightness_spec (o : Options) (g : Rng) (bMin : Int)
    (hmin : o.MinimumBrightness = some bMin) (hle : bMin ≤ 100) :
    ∃ b g1, setBrightness o g = some (b, g1) ∧
      (o.Luminosity = "dark" → bMin ≤ b ∧ b ≤ bMin + 20) ∧
      (o.Luminosity = "light" → (100 + bMin).tdiv 2 ≤ b ∧ b ≤ 100) ∧
      (o.Luminosity = "bright" → bMin ≤ b ∧ b ≤ 100) ∧
      (o.Luminosity ≠ "dark" → o.Luminosity ≠ "light" → o.Luminosity ≠ "bright" →
        0 ≤ b ∧ b ≤ 100) := by
  unfold setBrightness
  simp only [hmin]
  by_cases hd : o.Luminosity = "dark"
  · obtain ⟨b, g1, hb, hlo, hhi⟩ := randWithin_total ⟨bMin, bMin + 20⟩ g
      (show bMin ≤ bMin + 20 by omega)
    refine ⟨b, g1, by simp [hd, hb], fun _ => ⟨hlo, hhi⟩, ?_, ?_, ?_⟩ <;> simp [hd]
  by_cases hl : o.Luminosity = "light"
  · obtain ⟨b, g1, hb, hlo, hhi⟩ := randWithin_total ⟨(100 + bMin).tdiv 2, 100⟩ g
      (tdiv_two_le _ (by omega))
    refine ⟨b, g1, by simp [hl, hb], ?_, fun _ => ⟨hlo, hhi⟩, ?_, ?_⟩ <;> simp [hl]
  by_cases hbr : o.Luminosity = "bright"
  · obtain ⟨b, g1, hb, hlo, hhi⟩ := randWithin_total ⟨bMin, 100⟩ g hle
    refine ⟨b, g1, by simp [hbr, hb], ?_, ?_, fun _ => ⟨hlo, hhi⟩, ?_⟩ <;> simp [hbr]
  · obtain ⟨b, g1, hb, hlo, hhi⟩ := randWithin_total ⟨0, 100⟩ g (by decide)
    exact ⟨b, g1, by simp [hd, hl, hbr, hb], fun h => absurd h hd, fun h => absurd h hl,
      fun h => absurd h hbr, fun _ _ _ => ⟨hlo, hhi⟩⟩

theorem colors_hueRange (c : Color) (hc : c ∈ colors) :
    -360 ≤ c.HueRange.r0 ∧ c.HueRange.r0 ≤ c.HueRange.r1 ∧ c.HueRange.r1 < 360 ∧
      c.HueRange.r1 < c.HueRange.r0 + 360 := by
  simp only [colors, List.mem_cons, List.mem_singleton, List.not_mem_nil, or_false] at hc
  rcases hc with rfl | rfl | rfl | rfl | rfl | rfl | rfl | rfl <;> decide

theorem setHue_spec (o : Options) (g : Rng) (hr : o.HueRange.r0 ≤ o.HueRange.r1) :
    ∃ v g1, setHue o g = some (if v < 0 then 360 + v else v, g1) ∧
      o.HueRange.r0 ≤ v ∧ v ≤ o.HueRange.r1 := by
  obtain ⟨v, g1, hv, hlo, hhi⟩ := randWithin_total o.HueRange g hr
  exact ⟨v, g1, by simp [setHue, hv], hlo, hhi⟩

theorem FromTable_hueRange (o : Options) (ho : o.FromTable) :
    0 ≤ o.HueRange.r0 + 360 ∧ o.HueRange.r0 ≤ o.HueRange.r1 ∧ o.HueRange.r1 ≤ 360 := by
  rcases ho with hn | ⟨p, hp, hsome⟩
  · by_cases hd : o.Hue < 360 ∧ o.Hue > 0
    · simp only [Options.HueRange, hn, hd, and_self, if_true]; omega
    · simp only [Options.HueRange, hn, hd, if_false]; omega
  · have := colors_hueRange p.deref (deref_mem p hp)
    simp only [Options.HueRange, hsome]; omega

theorem setHue_total (o : Options) (g : Rng) (ho : o.FromTable) :
    ∃ h g1, setHue o g = some (h, g1) ∧ 0 ≤ h ∧ h ≤ 360 := by
  obtain ⟨h0, h1, h2⟩ := FromTable_hueRange o ho
  obtain ⟨v, g1, hv, hlo, hhi⟩ := setHue_spec o g h1
  refine ⟨_, g1, hv, ?_, ?_⟩ <;> split <;> omega

theorem setSaturation_total (o : Options) (g : Rng) (ho : o.FromTable) :
    ∃ s g1, setSaturation o g = some (s, g1) ∧ 0 ≤ s ∧ s ≤ 100 := by
  by_cases hm : o.Color = some ColorPtr.monochrome
  · exact ⟨0, g, by simp [setSaturation, hm], by decide, by decide⟩
  · obtain ⟨c, hc, hsat, _⟩ := FromTable_family o ho
    obtain ⟨sr, hsr, h0, h30, h100⟩ := colors_saturationRange c hc
    obtain ⟨s, g1, hs, hbright, hdark, hlight, hrandom, hdefault⟩ :=
      setSaturation_spec o g sr hm (hsat.trans hsr) (by omega) (by omega)
    refine ⟨s, g1, hs, ?_⟩
    by_cases hb : o.Luminosity = "bright"
    · have := hbright hb; omega
    by_cases hd : o.Luminosity = "dark"
    · have := hdark hd; omega
    by_cases hl : o.Luminosity = "light"
    · have := hlight hl; omega
    by_cases hr : o.Luminosity = "random"
    · exact hrandom hr
    · have := hdefault hb hd hl hr; omega

theorem MinimumBrightness_total (o : Options) (ho : o.FromTable) :
    ∃ bMin, o.MinimumBrightness = some bMin ∧ 0 ≤ bMin ∧ bMin ≤ 100 := by
  obtain ⟨c, hc, _, hlb⟩ := FromTable_family o ho
  unfold Options.MinimumBrightness
  rw [hlb]
  exact minimumBrightnessLoop_bounds _ _ (colors_curveOk c hc)

theorem NewColor_eq (o : Options) (g g1 g2 g3 : Rng) (h s b : Int)
    (hh : setHue o g = some (h, g1))
    (hs : setSaturation { o with Hue := h } g1 = some (s, g2))
    (hb : setBrightness { o with Hue := h, saturation := s } g2 = some (b, g3)) :
    NewColor o g =
      some ({ H := h, S := s, B := b, HueRange := ⟨0, 0⟩, LowerBounds := [] }, g3) := by
  simp [NewColor, hh, hs, hb]

/-- The resolver never panics on table options: every step returns, and `NewColor`
returns the colour assembled from the three results. -/
theorem NewColor_steps (o : Options) (g : Rng) (ho : o.FromTable) :
    ∃ h s b bMin g1 g2 g3, setHue o g = some (h, g1) ∧
      setSaturation { o with Hue := h } g1 = some (s, g2) ∧
      Options.MinimumBrightness { o with Hue := h, saturation := s } = some bMin ∧
      setBrightness { o with Hue := h, saturation := s } g2 = some (b, g3) ∧
      NewColor o g =
        some ({ H := h, S := s, B := b, HueRange := ⟨0, 0⟩, LowerBounds := [] }, g3) ∧
      (0 ≤ h ∧ h ≤ 360) ∧ (0 ≤ s ∧ s ≤ 100) ∧
      (o.Luminosity = "dark" → bMin ≤ b ∧ b ≤ bMin + 20) ∧
      (o.Luminosity = "light" → (100 + bMin).tdiv 2 ≤ b ∧ b ≤ 100) ∧
      (0 ≤ b ∧ (o.Luminosity ≠ "dark" → b ≤ 100)) := by
  obtain ⟨h, g1, hh, hh0⟩ := setHue_total o g ho
  obtain ⟨s, g2, hs, hs0⟩ := setSaturation_total { o with Hue := h } g1 ho
  obtain ⟨bMin, hmin, hge, hle⟩ :=
    MinimumBrightness_total { o with Hue := h, saturation := s } ho
  obtain ⟨b, g3, hb, hdark, hlight, hbright, hdefault⟩ :=
    setBrightness_spec { o with Hue := h, saturation := s } g2 bMin hmin hle
  refine ⟨h, s, b, bMin, g1, g2, g3, hh, hs, hmin, hb,
    NewColor_eq o g g1 g2 g3 h s b hh hs hb, hh0, hs0, hdark, hlight, ?_⟩
  by_cases hd : o.Luminosity = "dark"
  · exact ⟨by have := hdark hd; omega, fun hne => absurd hd hne⟩
  by_cases hl : o.Luminosity = "light"
  · have h1 := hlight hl
    have h2 : 0 ≤ (100 + bMin).tdiv 2 := Int.tdiv_nonneg (by omega) (by decide)
    exact ⟨by omega, fun _ => h1.2⟩
  by_cases hbr : o.Luminosity = "bright"
  · have h1 := hbright hbr
    exact ⟨by omega, fun _ => h1.2⟩
  · have h1 := hdefault hd hl hbr
    exact ⟨h1.1, fun _ => h1.2⟩

theorem some_pair_inj {α β : Type} {x : Option (α × β)} {a a1 : α} {b b1 : β}
    (h : x = some (a, b)) (h1 : x = some (a1, b1)) : a = a1 := by
  rw [h] at h1
  exact (Prod.mk.inj (Option.some.inj h1)).1

/-! ## Hue -/

/-- C1: with no family selected and a degree hue `h`, `0 < h < 360`, `NewColor` returns,
for every luminosity string and every outcome of the draws, a colour whose `H` is `h`. -/
theorem newColor_degree_hue_exact (h : Int) (lum : String) (sat : Int) (g : Rng)
    (h0 : 0 < h) (h1 : h < 360) :
    ∃ c g1, NewColor { Hue := h, Luminosity := lum, Color := none, saturation := sat } g
      = some (c, g1) ∧ c.H = h := by
  obtain ⟨h2, s, b, bMin, g1, g2, g3, hh, _, _, _, hnew, _⟩ :=
    NewColor_steps { Hue := h, Luminosity := lum, Color := none, saturation := sat } g
      (Or.inl rfl)
  obtain ⟨v, g4, hv, hlo, hhi⟩ :=
    setHue_spec { Hue := h, Luminosity := lum, Color := none, saturation := sat } g
      (by simp [Options.HueRange, h0, h1])
  have hr : Options.HueRange { Hue := h, Luminosity := lum, Color := none, saturation := sat }
      = ⟨h, h⟩ := by simp [Options.HueRange, h0, h1]
  rw [hr] at hlo hhi
  have hvh : v = h := le_antisymm hhi hlo
  have := some_pair_inj hh hv
  refine ⟨_, g3, hnew, ?_⟩
  show h2 = h
  rw [this, hvh, if_neg (by omega)]

theorem newColor_degree_hue_exact_witness :
    (0 : Int) < 120 ∧ (120 : Int) < 360 ∧
      ∃ c g1, NewColor { Hue := 120, Luminosity := "bright", Color := none, saturation := 0 }
        (draws [5, 17, 42]) = some (c, g1) ∧ c.H = 120 :=
  ⟨by decide, by decide,
    newColor_degree_hue_exact 120 "bright" 0 (draws [5, 17, 42]) (by decide) (by decide)⟩

/-- C2: when one of the eight families is selected through `Options.Color`, `NewColor`
returns, for every `Hue`, luminosity and outcome of the draws, a colour with
`0 ≤ H < 360` whose unfolded hue (`H` itself if `H ≤ HueRange[1]`, else `H - 360`) lies
in the family's stored `HueRange`, bounds included. -/
theorem newColor_family_hue_in_range (p : ColorPtr) (hue : Int) (lum : String) (sat : Int)
    (g : Rng) (hp : p ∈ tablePtrs) :
    ∃ c g1, NewColor { Hue := hue, Luminosity := lum, Color := some p, saturation := sat } g
        = some (c, g1) ∧ 0 ≤ c.H ∧ c.H < 360 ∧
      p.deref.HueRange.r0 ≤ (if c.H ≤ p.deref.HueRange.r1 then c.H else c.H - 360) ∧
      (if c.H ≤ p.deref.HueRange.r1 then c.H else c.H - 360) ≤ p.deref.HueRange.r1 := by
  obtain ⟨h2, s, b, bMin, g1, g2, g3, hh, _, _, _, hnew, _⟩ :=
    NewColor_steps { Hue := hue, Luminosity := lum, Color := some p, saturation := sat } g
      (Or.inr ⟨p, hp, rfl⟩)
  obtain ⟨hr0, hr1, hr2, hr3⟩ := colors_hueRange p.deref (deref_mem p hp)
  obtain ⟨v, g4, hv, hlo, hhi⟩ :=
    setHue_spec { Hue := hue, Luminosity := lum, Color := some p, saturation := sat } g hr1
  have hlo1 : p.deref.HueRange.r0 ≤ v := hlo
  have hhi1 : v ≤ p.deref.HueRange.r1 := hhi
  have hh2 : h2 = if v < 0 then 360 + v else v := some_pair_inj hh hv
  refine ⟨_, g3, hnew, ?_⟩
  show 0 ≤ h2 ∧ h2 < 360 ∧
    p.deref.HueRange.r0 ≤ (if h2 ≤ p.deref.HueRange.r1 then h2 else h2 - 360) ∧
    (if h2 ≤ p.deref.HueRange.r1 then h2 else h2 - 360) ≤ p.deref.HueRange.r1
  rw [hh2]
  by_cases hneg : v < 0
  · rw [if_pos hneg, if_neg (by omega)]; omega
  · rw [if_neg hneg, if_pos hhi1]; omega

theorem newColor_family_hue_in_range_witness :
    ColorPtr.red ∈ tablePtrs ∧
      ∃ c g1, NewColor
          { Hue := 200, Luminosity := "dark", Color := some ColorPtr.red, saturation := 0 }
          (draws [3, 1, 4]) = some (c, g1) ∧ 0 ≤ c.H ∧ c.H < 360 ∧
        ColorPtr.red.deref.HueRange.r0
          ≤ (if c.H ≤ ColorPtr.red.deref.HueRange.r1 then c.H else c.H - 360) ∧
        (if c.H ≤ ColorPtr.red.deref.HueRange.r1 then c.H else c.H - 360)
          ≤ ColorPtr.red.deref.HueRange.r1 :=
  ⟨by decide, newColor_family_hue_in_range ColorPtr.red 200 "dark" 0 (draws [3, 1, 4])
    (by decide)⟩

/-! ## Saturation -/

/-- C3: when `Options.Color` is the address of `Monochrome`, `NewColor` returns, for every
`Hue`, every luminosity string and every outcome of the draws, a colour with `S = 0`. -/
theorem newColor_monochrome_saturation_zero (hue : Int) (lum : String) (sat : Int) (g : Rng) :
    ∃ c g1, NewColor
        { Hue := hue, Luminosity := lum, Color := some ColorPtr.monochrome, saturation := sat }
        g = some (c, g1) ∧ c.S = 0 := by
  obtain ⟨h2, s, b, bMin, g1, g2, g3, _, hs, _, _, hnew, _⟩ :=
    NewColor_steps
      { Hue := hue, Luminosity := lum, Color := some ColorPtr.monochrome, saturation := sat }
      g (Or.inr ⟨ColorPtr.monochrome, by decide, rfl⟩)
  have hs0 : setSaturation
      { Hue := h2, Luminosity := lum, Color := some ColorPtr.monochrome, saturation := sat }
      g1 = some (0, g1) := by
    simp [setSaturation]
  exact ⟨_, g3, hnew, some_pair_inj hs hs0⟩

/-- C8: for a non-Monochrome family selected through `Options.Color`, with
`(sMin, sMax)` its `SaturationRange()`, the `S` returned by `NewColor` lies in `[55, sMax]`
for "bright", `[sMax - 10, sMax]` for "dark", `[sMin, 55]` for "light", `[0, 100]` for
"random" and `[sMin, sMax]` for any other luminosity; Purple with "bright" gives
`55 ≤ S ≤ 100`. -/
theorem newColor_family_saturation (p : ColorPtr) (hue : Int) (lum : String) (sat : Int)
    (g : Rng) (hp : p ∈ tablePtrs) (hm : p ≠ ColorPtr.monochrome) :
    ∃ c g1 sr, NewColor { Hue := hue, Luminosity := lum, Color := some p, saturation := sat } g
        = some (c, g1) ∧ p.deref.SaturationRange = some sr ∧
      (lum = "bright" → 55 ≤ c.S ∧ c.S ≤ sr.r1) ∧
      (lum = "dark" → sr.r1 - 10 ≤ c.S ∧ c.S ≤ sr.r1) ∧
      (lum = "light" → sr.r0 ≤ c.S ∧ c.S ≤ 55) ∧
      (lum = "random" → 0 ≤ c.S ∧ c.S ≤ 100) ∧
      (lum ≠ "bright" → lum ≠ "dark" → lum ≠ "light" → lum ≠ "random" →
        sr.r0 ≤ c.S ∧ c.S ≤ sr.r1) ∧
      (p = ColorPtr.purple → lum = "bright" → 55 ≤ c.S ∧ c.S ≤ 100) := by
  obtain ⟨h2, s, b, bMin, g1, g2, g3, _, hs, _, _, hnew, _⟩ :=
    NewColor_steps { Hue := hue, Luminosity := lum, Color := some p, saturation := sat } g
      (Or.inr ⟨p, hp, rfl⟩)
  obtain ⟨sr, hsr, h0, h30, h100⟩ := colors_saturationRange p.deref (deref_mem p hp)
  obtain ⟨s1, g4, hs1, hbright, hdark, hlight, hrandom, hdefault⟩ :=
    setSaturation_spec { Hue := h2, Luminosity := lum, Color := some p, saturation := sat } g1 sr
      (fun hc => hm (Option.some.inj hc)) hsr (by omega) (by omega)
  have hss : s = s1 := some_pair_inj hs hs1
  subst hss
  refine ⟨_, g3, sr, hnew, hsr, hbright, hdark, hlight, hrandom, hdefault, ?_⟩
  intro _ hb
  have hs55 : 55 ≤ s ∧ s ≤ sr.r1 := hbright hb
  exact ⟨hs55.1, show s ≤ 100 by omega⟩

theorem newColor_family_saturation_witness :
    ColorPtr.purple ∈ tablePtrs ∧ ColorPtr.purple ≠ ColorPtr.monochrome ∧
      ∃ c g1 sr, NewColor
          { Hue := 0, Luminosity := "bright", Color := some ColorPtr.purple, saturation := 0 }
          (draws [7, 30, 2]) = some (c, g1) ∧ ColorPtr.purple.deref.SaturationRange = some sr ∧
        ("bright" = "bright" → 55 ≤ c.S ∧ c.S ≤ sr.r1) ∧
        ("bright" = "dark" → sr.r1 - 10 ≤ c.S ∧ c.S ≤ sr.r1) ∧
        ("bright" = "light" → sr.r0 ≤ c.S ∧ c.S ≤ 55) ∧
        ("bright" = "random" → 0 ≤ c.S ∧ c.S ≤ 100) ∧
        ("bright" ≠ "bright" → "bright" ≠ "dark" → "bright" ≠ "light" → "bright" ≠ "random" →
          sr.r0 ≤ c.S ∧ c.S ≤ sr.r1) ∧
        (ColorPtr.purple = ColorPtr.purple → "bright" = "bright" → 55 ≤ c.S ∧ c.S ≤ 100) :=
  ⟨by decide, by decide,
    newColor_family_saturation ColorPtr.purple 0 "bright" 0 (draws [7, 30, 2]) (by decide)
      (by decide)⟩

/-! ## Brightness -/

/-- C6: with luminosity "dark", for every table option (in particular every non-Monochrome
family selected explicitly or resolved from a degree hue) `NewColor` returns a colour with
`bMin ≤ B ≤ bMin + 20`, where `bMin` is `Options.MinimumBrightness` on the resolved family's
curve at the returned `S`. -/
theorem newColor_dark_brightness (o : Options) (g : Rng) (ho : o.FromTable)
    (hl : o.Luminosity = "dark") :
    ∃ c g1 bMin, NewColor o g = some (c, g1) ∧
      Options.MinimumBrightness { o with Hue := c.H, saturation := c.S } = some bMin ∧
      bMin ≤ c.B ∧ c.B ≤ bMin + 20 := by
  obtain ⟨h, s, b, bMin, g1, g2, g3, _, _, hmin, _, hnew, _, _, hdark, _⟩ :=
    NewColor_steps o g ho
  exact ⟨_, g3, bMin, hnew, hmin, hdark hl⟩

theorem newColor_dark_brightness_witness :
    Options.FromTable { Hue := 200, Luminosity := "dark", Color := none, saturation := 0 } ∧
      ∃ c g1 bMin, NewColor { Hue := 200, Luminosity := "dark", Color := none, saturation := 0 }
          (draws [0, 4, 9]) = some (c, g1) ∧
        Options.MinimumBrightness
          { Hue := c.H, Luminosity := "dark", Color := none, saturation := c.S } = some bMin ∧
        bMin ≤ c.B ∧ c.B ≤ bMin + 20 :=
  ⟨Or.inl rfl,
    newColor_dark_brightness { Hue := 200, Luminosity := "dark", Color := none, saturation := 0 }
      (draws [0, 4, 9]) (Or.inl rfl) rfl⟩

/-- C7: with luminosity "light", for every table option (any table family or degree hue)
`NewColor` returns a colour with `(bMin + 100) / 2 ≤ B ≤ 100`, the division truncating,
where `bMin` is `Options.MinimumBrightness` at the returned `S`. -/
theorem newColor_light_brightness (o : Options) (g : Rng) (ho : o.FromTable)
    (hl : o.Luminosity = "light") :
    ∃ c g1 bMin, NewColor o g = some (c, g1) ∧
      Options.MinimumBrightness { o with Hue := c.H, saturation := c.S } = some bMin ∧
      (bMin + 100).tdiv 2 ≤ c.B ∧ c.B ≤ 100 := by
  obtain ⟨h, s, b, bMin, g1, g2, g3, _, _, hmin, _, hnew, _, _, _, hlight, _⟩ :=
    NewColor_steps o g ho
  refine ⟨_, g3, bMin, hnew, hmin, ?_⟩
  rw [add_comm]
  exact hlight hl

theorem newColor_light_brightness_witness :
    Options.FromTable
        { Hue := 0, Luminosity := "light", Color := some ColorPtr.blue, saturation := 0 } ∧
      ∃ c g1 bMin, NewColor
          { Hue := 0, Luminosity := "light", Color := some ColorPtr.blue, saturation := 0 }
          (draws [11, 6, 13]) = some (c, g1) ∧
        Options.MinimumBrightness
          { Hue := c.H, Luminosity := "light", Color := some ColorPtr.blue, saturation := c.S }
          = some bMin ∧
        (bMin + 100).tdiv 2 ≤ c.B ∧ c.B ≤ 100 :=
  ⟨Or.inr ⟨ColorPtr.blue, by decide, rfl⟩,
    newColor_light_brightness
      { Hue := 0, Luminosity := "light", Color := some ColorPtr.blue, saturation := 0 }
      (draws [11, 6, 13]) (Or.inr ⟨ColorPtr.blue, by decide, rfl⟩) rfl⟩

/-- C4: the selection `&Yellow` with luminosity "dark" leaves the range `[0, 100]`: at
`S = 90` the truncated slope `(80 - 82) / (90 - 80)` is `0`, so `MinimumBrightness` is `82`,
the brightness range is `[82, 102]`, and the draw `20` returns `B = 102`. -/
theorem newColor_yellow_dark_brightness_102 :
    Options.MinimumBrightness
        { Hue := 47, Luminosity := "dark", Color := some ColorPtr.yellow, saturation := 90 }
        = some 82 ∧
      hsb (NewColor
        { Hue := 0, Luminosity := "dark", Color := some ColorPtr.yellow, saturation := 0 }
        (draws [0, 0, 20])) = some (47, 90, 102) := by
  decide

/-- What does hold of saturation and brightness on every table option: `NewColor` returns
a colour with `0 ≤ S ≤ 100` and `0 ≤ B`, and `B ≤ 100` unless the luminosity is "dark". -/
theorem newColor_saturation_brightness_bounds (o : Options) (g : Rng) (ho : o.FromTable) :
    ∃ c g1, NewColor o g = some (c, g1) ∧ 0 ≤ c.S ∧ c.S ≤ 100 ∧ 0 ≤ c.B ∧
      (o.Luminosity ≠ "dark" → c.B ≤ 100) := by
  obtain ⟨h, s, b, bMin, g1, g2, g3, _, _, _, _, hnew, _, hs0, _, _, hb0⟩ :=
    NewColor_steps o g ho
  exact ⟨_, g3, hnew, hs0.1, hs0.2, hb0.1, hb0.2⟩

/-- C5, as stated, fails: with no family and the unconstrained hue `0` the hue range is
`Range{0, 360}`, and when the first draw is `360` the returned `H` is `360`. -/
theorem newColor_unconstrained_hue_360 :
    ∃ c g1, NewColor { Hue := 0, Luminosity := "", Color := none, saturation := 0 }
      (draws [360, 0, 0]) = some (c, g1) ∧ c.H = 360 ∧ ¬ c.H < 360 := by
  have hv : hsb (NewColor { Hue := 0, Luminosity := "", Color := none, saturation := 0 }
      (draws [360, 0, 0])) = some (360, 0, 0) := by decide
  cases hr : NewColor { Hue := 0, Luminosity := "", Color := none, saturation := 0 }
      (draws [360, 0, 0]) with
  | none => rw [hr] at hv; simp [hsb] at hv
  | some r =>
    rw [hr] at hv
    simp only [hsb, Option.map_some', Option.some.injEq, Prod.mk.injEq] at hv
    exact ⟨r.1, r.2, rfl, hv.1, by omega⟩

/-- C5, amended: for every table option and every outcome of the draws `NewColor` returns a
colour with `0 ≤ H ≤ 360`, and `H < 360` whenever a family is selected or `Hue` is a degree
hue with `0 < Hue < 360`. -/
theorem newColor_hue_bounds (o : Options) (g : Rng) (ho : o.FromTable) :
    ∃ c g1, NewColor o g = some (c, g1) ∧ 0 ≤ c.H ∧ c.H ≤ 360 ∧
      (o.Color ≠ none ∨ (0 < o.Hue ∧ o.Hue < 360) → c.H < 360) := by
  obtain ⟨h, s, b, bMin, g1, g2, g3, hh, _, _, _, hnew, hh0, _⟩ := NewColor_steps o g ho
  refine ⟨_, g3, hnew, hh0.1, hh0.2, ?_⟩
  intro hsel
  show h < 360
  obtain ⟨_, hr1, _⟩ := FromTable_hueRange o ho
  obtain ⟨v, g4, hv, hlo, hhi⟩ := setHue_spec o g hr1
  have hhv : h = if v < 0 then 360 + v else v := some_pair_inj hh hv
  have hlt : o.HueRange.r1 < 360 := by
    rcases ho with hn | ⟨p, hp, hsome⟩
    · rcases hsel with hne | hdeg
      · exact absurd hn hne
      · simp only [Options.HueRange, hn, hdeg, and_self, if_true]
    · have := colors_hueRange p.deref (deref_mem p hp)
      simp only [Options.HueRange, hsome]; omega
  rw [hhv]
  split <;> omega

theorem newColor_hue_bounds_witness :
    Options.FromTable { Hue := 0, Luminosity := "random", Color := none, saturation := 0 } ∧
      ∃ c g1, NewColor { Hue := 0, Luminosity := "random", Color := none, saturation := 0 }
          (draws [360, 8, 1]) = some (c, g1) ∧ 0 ≤ c.H ∧ c.H ≤ 360 ∧
        ((none : Option ColorPtr) ≠ none ∨ ((0 : Int) < 0 ∧ (0 : Int) < 360) → c.H < 360) :=
  ⟨Or.inl rfl,
    newColor_hue_bounds { Hue := 0, Luminosity := "random", Color := none, saturation := 0 }
      (draws [360, 8, 1]) (Or.inl rfl)⟩

/-! ## Hue lookup -/

/-- C9: the stored hue ranges overlap at degree 334: Pink's range `[283, 334]` contains
`334` and Red's range `[-26, 18]` contains the folded form `334 - 360`, so two of the seven
non-Monochrome families cover that degree. -/
theorem hue_ranges_overlap_at_334 :
    Red.coversDegree 334 = true ∧ Pink.coversDegree 334 = true ∧ Red ≠ Pink ∧
      (colors.tail.filter (fun c => c.coversDegree 334)) = [Red, Pink] := by
  decide

set_option maxRecDepth 100000 in
/-- Every other degree of `[0, 360)` is covered by exactly one of the seven non-Monochrome
families. -/
theorem hue_ranges_cover_once :
    ∀ d : Fin 360, d.val ≠ 334 →
      (colors.tail.filter (fun c => c.coversDegree (d.val : Int))).length = 1 := by
  decide

/-- C10: the hue lookup reaches Monochrome: its range `{0, 0}` comes first in `colors`, so
`ColorInfo(0)` returns it, and `ColorInfo(360)` does after the fold of `360` to `0`. -/
theorem colorInfo_zero_is_monochrome :
    ColorInfo 0 = Monochrome ∧ ColorInfo 360 = Monochrome := by
  decide

set_option maxRecDepth 100000 in
/-- For every hue of `[1, 359]` the lookup returns a family other than Monochrome. -/
theorem colorInfo_inner_not_monochrome :
    ∀ h : Fin 360, h.val ≠ 0 → ColorInfo (h.val : Int) ≠ Monochrome := by
  decide

/-! ## The returned colour -/

theorem NewColor_other_empty (o : Options) (g : Rng) (c : Color) (hc : c.LowerBounds = [])
    (ho : o.Color = some (ColorPtr.other c)) : NewColor o g = none := by
  have hsat : ∀ (h : Int) (g1 : Rng), setSaturation { o with Hue := h } g1 = none := by
    intro h g1
    simp [setSaturation, ho, Options.SaturationRange, ColorPtr.deref, Color.SaturationRange, hc]
  unfold NewColor
  cases hh : setHue o g with
  | none => rfl
  | some r => simp [hsat]

/-- C11, as stated, fails: with `&Red` selected the colour `NewColor` returns has neither
Red's hue range nor Red's lower-bound curve. -/
theorem newColor_result_drops_family :
    ∃ c g1, NewColor { Hue := 0, Luminosity := "", Color := some ColorPtr.red, saturation := 0 }
        (draws [0, 0, 0]) = some (c, g1) ∧
      c.HueRange ≠ Red.HueRange ∧ c.LowerBounds ≠ Red.LowerBounds := by
  obtain ⟨h, s, b, bMin, g1, g2, g3, _, _, _, _, hnew, _⟩ :=
    NewColor_steps { Hue := 0, Luminosity := "", Color := some ColorPtr.red, saturation := 0 }
      (draws [0, 0, 0]) (Or.inr ⟨ColorPtr.red, by decide, rfl⟩)
  refine ⟨_, g3, hnew, ?_, ?_⟩
  · show (⟨0, 0⟩ : Range) ≠ Red.HueRange
    decide
  · show ([] : List Range) ≠ Red.LowerBounds
    decide

/-- C11, amended: the colour `NewColor` returns carries only the sampled `H`, `S`, `B`; for
every table option and every outcome of the draws its `HueRange` is `Range{0, 0}` and its
`LowerBounds` is empty, so `SaturationRange()` on it panics and so does `NewColor` on any
options that point at it. -/
theorem newColor_result_zero_fields (o : Options) (g : Rng) (ho : o.FromTable) :
    ∃ c g1, NewColor o g = some (c, g1) ∧ c.HueRange = ⟨0, 0⟩ ∧ c.LowerBounds = [] ∧
      c.SaturationRange = none ∧
      ∀ (o2 : Options) (g2 : Rng), o2.Color = some (ColorPtr.other c) → NewColor o2 g2 = none := by
  obtain ⟨h, s, b, bMin, g1, g2, g3, _, _, _, _, hnew, _⟩ := NewColor_steps o g ho
  exact ⟨_, g3, hnew, rfl, rfl, rfl, fun o2 g4 ho2 => NewColor_other_empty o2 g4 _ rfl ho2⟩

theorem newColor_result_zero_fields_witness :
    Options.FromTable { Hue := 0, Luminosity := "", Color := some ColorPtr.red, saturation := 0 } ∧
      ∃ c g1, NewColor { Hue := 0, Luminosity := "", Color := some ColorPtr.red, saturation := 0 }
          (draws [4, 4, 4]) = some (c, g1) ∧ c.HueRange = ⟨0, 0⟩ ∧ c.LowerBounds = [] ∧
        c.SaturationRange = none ∧
        ∀ (o2 : Options) (g2 : Rng), o2.Color = some (ColorPtr.other c) →
          NewColor o2 g2 = none :=
  ⟨Or.inr ⟨ColorPtr.red, by decide, rfl⟩,
    newColor_result_zero_fields
      { Hue := 0, Luminosity := "", Color := some ColorPtr.red, saturation := 0 }
      (draws [4, 4, 4]) (Or.inr ⟨ColorPtr.red, by decide, rfl⟩)⟩

/-- C12: an explicit family selection takes precedence over the degree hue: two options
with the same table family, luminosity and draws that differ only in `Hue` make `NewColor`
return the same colour (so the same `H`, `S`, `B`) and leave the same generator state. -/
theorem newColor_family_ignores_hue (p : ColorPtr) (hue1 hue2 : Int) (lum : String)
    (sat : Int) (g : Rng) (hp : p ∈ tablePtrs) :
    ∃ c g1,
      NewColor { Hue := hue1, Luminosity := lum, Color := some p, saturation := sat } g
        = some (c, g1) ∧
      NewColor { Hue := hue2, Luminosity := lum, Color := some p, saturation := sat } g
        = some (c, g1) := by
  obtain ⟨h, s, b, bMin, g1, g2, g3, _, _, _, _, hnew, _⟩ :=
    NewColor_steps { Hue := hue1, Luminosity := lum, Color := some p, saturation := sat } g
      (Or.inr ⟨p, hp, rfl⟩)
  refine ⟨_, g3, hnew, ?_⟩
  rw [← hnew]
  have hhue : setHue { Hue := hue2, Luminosity := lum, Color := some p, saturation := sat } g
      = setHue { Hue := hue1, Luminosity := lum, Color := some p, saturation := sat } g := rfl
  unfold NewColor
  rw [hhue]

theorem newColor_family_ignores_hue_witness :
    ColorPtr.green ∈ tablePtrs ∧
      ∃ c g1,
        NewColor { Hue := 10, Luminosity := "light", Color := some ColorPtr.green, saturation := 0 }
          (draws [9, 2, 6]) = some (c, g1) ∧
        NewColor { Hue := 300, Luminosity := "light", Color := some ColorPtr.green, saturation := 0 }
          (draws [9, 2, 6]) = some (c, g1) :=
  ⟨by decide,
    newColor_family_ignores_hue ColorPtr.green 10 300 "light" 0 (draws [9, 2, 6]) (by decide)⟩

/-! ## Minimum brightness -/

theorem minimumBrightnessLoop_eq_spec (S : Int) (l : List Range) (hl : CurveOk l) :
    minimumBrightnessLoop S l = some (minimumBrightnessSpec S l) := by
  induction l with
  | nil => simp [minimumBrightnessLoop, minimumBrightnessSpec]
  | cons p1 t ih =>
    cases t with
    | nil => simp [minimumBrightnessLoop, minimumBrightnessSpec]
    | cons p2 rest =>
      obtain ⟨⟨hs, _⟩, htail⟩ := hl
      have ih2 := ih htail
      unfold minimumBrightnessLoop
      by_cases hseg : S ≥ p1.r0 ∧ S ≤ p2.r0
      · have hd : ¬ (p2.r0 - p1.r0 = 0) := by omega
        have hseg2 : p1.r0 ≤ S ∧ S ≤ p2.r0 := hseg
        simp only [hseg, and_self, if_true, hd, if_false, minimumBrightnessSpec, List.tail_cons,
          List.zip_cons_cons, List.find?_cons, hseg2, decide_True]
        congr 1
        ring
      · have hseg2 : ¬ (p1.r0 ≤ S ∧ S ≤ p2.r0) := hseg
        simp only [hseg, if_false]
        rw [ih2]
        simp only [minimumBrightnessSpec, List.tail_cons, List.zip_cons_cons, List.find?_cons,
          hseg2, decide_False]

theorem minimumBrightnessLoop_below (S : Int) (l : List Range) (h : ∀ p ∈ l, S < p.r0) :
    minimumBrightnessLoop S l = some 0 := by
  induction l with
  | nil => simp [minimumBrightnessLoop]
  | cons p1 t ih =>
    cases t with
    | nil => simp [minimumBrightnessLoop]
    | cons p2 rest =>
      have h1 := h p1 (List.mem_cons_self _ _)
      unfold minimumBrightnessLoop
      rw [if_neg (by omega)]
      exact ih (fun p hp => h p (List.mem_cons_of_mem _ hp))

theorem minimumBrightnessLoop_above (S : Int) (l : List Range) (h : ∀ p ∈ l, p.r0 < S) :
    minimumBrightnessLoop S l = some 0 := by
  induction l with
  | nil => simp [minimumBrightnessLoop]
  | cons p1 t ih =>
    cases t with
    | nil => simp [minimumBrightnessLoop]
    | cons p2 rest =>
      have h2 := h p2 (List.mem_cons_of_mem _ (List.mem_cons_self _ _))
      unfold minimumBrightnessLoop
      rw [if_neg (by omega)]
      exact ih (fun p hp => h p (List.mem_cons_of_mem _ hp))

theorem colors_ranges (c : Color) (hc : c ∈ colors) :
    ∃ sr br, c.SaturationRange = some sr ∧ c.BrightnessRange = some br ∧
      (∀ p ∈ c.LowerBounds, sr.r0 ≤ p.r0 ∧ p.r0 ≤ sr.r1 ∧ br.r0 ≤ p.r1 ∧ p.r1 ≤ br.r1) ∧
      (∃ p ∈ c.LowerBounds, p.r0 = sr.r0) ∧ (∃ p ∈ c.LowerBounds, p.r0 = sr.r1) ∧
      (∃ p ∈ c.LowerBounds, p.r1 = br.r0) ∧ (∃ p ∈ c.LowerBounds, p.r1 = br.r1) := by
  simp only [colors, List.mem_cons, List.mem_singleton, List.not_mem_nil, or_false] at hc
  rcases hc with rfl | rfl | rfl | rfl | rfl | rfl | rfl | rfl <;>
    exact ⟨_, _, rfl, rfl, by decide, by decide, by decide, by decide, by decide⟩

/-- C16: for every table family and every integer saturation `S`,
`Options.MinimumBrightness` returns `v1 + ((v2 - v1) / (s2 - s1)) * (S - s1)`, the division
truncating, for the first pair of consecutive curve points with `s1 ≤ S ≤ s2`, and `0`
when no pair contains `S`, which is the case when `S` is below the curve's first saturation
or above its last. -/
theorem minimumBrightness_refines_spec (p : ColorPtr) (hue : Int) (lum : String) (S : Int)
    (hp : p ∈ tablePtrs) :
    Options.MinimumBrightness { Hue := hue, Luminosity := lum, Color := some p, saturation := S }
        = some (minimumBrightnessSpec S p.deref.LowerBounds) ∧
      ∀ sr, p.deref.SaturationRange = some sr → S < sr.r0 ∨ sr.r1 < S →
        Options.MinimumBrightness
            { Hue := hue, Luminosity := lum, Color := some p, saturation := S } = some 0 ∧
          minimumBrightnessSpec S p.deref.LowerBounds = 0 := by
  have hc := deref_mem p hp
  have hmain : Options.MinimumBrightness
      { Hue := hue, Luminosity := lum, Color := some p, saturation := S }
      = some (minimumBrightnessSpec S p.deref.LowerBounds) :=
    minimumBrightnessLoop_eq_spec S _ (colors_curveOk _ hc)
  refine ⟨hmain, ?_⟩
  intro sr hsr hout
  obtain ⟨sr1, br, hsr1, _, hall, _⟩ := colors_ranges p.deref hc
  rw [hsr] at hsr1
  obtain rfl : sr = sr1 := Option.some.inj hsr1
  have hzero : Options.MinimumBrightness
      { Hue := hue, Luminosity := lum, Color := some p, saturation := S } = some 0 := by
    rcases hout with hlo | hhi
    · exact minimumBrightnessLoop_below S _ (fun q hq => by have := hall q hq; omega)
    · exact minimumBrightnessLoop_above S _ (fun q hq => by have := hall q hq; omega)
  refine ⟨hzero, ?_⟩
  rw [hmain] at hzero
  exact Option.some.inj hzero

theorem minimumBrightness_refines_spec_witness :
    ColorPtr.blue ∈ tablePtrs ∧ ColorPtr.blue.deref.SaturationRange = some ⟨20, 100⟩ ∧
      Options.MinimumBrightness
          { Hue := 0, Luminosity := "", Color := some ColorPtr.blue, saturation := 10 }
          = some (minimumBrightnessSpec 10 ColorPtr.blue.deref.LowerBounds) ∧
      Options.MinimumBrightness
          { Hue := 0, Luminosity := "", Color := some ColorPtr.blue, saturation := 10 }
          = some 0 ∧
      minimumBrightnessSpec 10 ColorPtr.blue.deref.LowerBounds = 0 :=
  ⟨by decide, rfl,
    (minimumBrightness_refines_spec ColorPtr.blue 0 "" 10 (by decide)).1,
    (minimumBrightness_refines_spec ColorPtr.blue 0 "" 10 (by decide)).2 ⟨20, 100⟩ rfl
      (Or.inl (by decide))⟩

/-- C17: the minimum brightness does not pass through the stored curve points: Red stores
`(30, 92)`, but at saturation `30` the first matching segment is `(20, 100)`-`(30, 92)`, whose
truncated slope `(92 - 100) / (30 - 20)` is `0`, so `MinimumBrightness` returns `100`. -/
theorem minimumBrightness_red_30_is_100 :
    (⟨30, 92⟩ : Range) ∈ Red.LowerBounds ∧
      Options.MinimumBrightness
        { Hue := 0, Luminosity := "", Color := some ColorPtr.red, saturation := 30 } = some 100 := by
  decide

/-- At the first point of every table curve the minimum brightness is the stored one. -/
theorem minimumBrightness_first_point (c : Color) (hc : c ∈ colors) :
    ∃ p, c.LowerBounds.head? = some p ∧ minimumBrightnessLoop p.r0 c.LowerBounds = some p.r1 := by
  simp only [colors, List.mem_cons, List.mem_singleton, List.not_mem_nil, or_false] at hc
  rcases hc with rfl | rfl | rfl | rfl | rfl | rfl | rfl | rfl <;> exact ⟨_, rfl, by decide⟩

/-! ## Table invariants -/

/-- C20: every one of the eight table families has a curve of at least two points with
strictly increasing saturations and never increasing brightness; `SaturationRange()`
returns the smallest and largest saturation of the curve, `BrightnessRange()` the smallest
and largest brightness, each with `low ≤ high`. -/
theorem table_curves_ordered (c : Color) (hc : c ∈ colors) :
    2 ≤ c.LowerBounds.length ∧
      List.Chain' (fun p q => p.r0 < q.r0) c.LowerBounds ∧
      List.Chain' (fun p q => q.r1 ≤ p.r1) c.LowerBounds ∧
      ∃ sr br, c.SaturationRange = some sr ∧ c.BrightnessRange = some br ∧
        (∀ p ∈ c.LowerBounds, sr.r0 ≤ p.r0 ∧ p.r0 ≤ sr.r1 ∧ br.r0 ≤ p.r1 ∧ p.r1 ≤ br.r1) ∧
        (∃ p ∈ c.LowerBounds, p.r0 = sr.r0) ∧ (∃ p ∈ c.LowerBounds, p.r0 = sr.r1) ∧
        (∃ p ∈ c.LowerBounds, p.r1 = br.r0) ∧ (∃ p ∈ c.LowerBounds, p.r1 = br.r1) ∧
        sr.r0 ≤ sr.r1 ∧ br.r0 ≤ br.r1 := by
  obtain ⟨sr, br, hsr, hbr, hall, hs0, hs1, hb0, hb1⟩ := colors_ranges c hc
  have hlen : 2 ≤ c.LowerBounds.length ∧
      List.Chain' (fun p q => p.r0 < q.r0) c.LowerBounds ∧
      List.Chain' (fun p q => q.r1 ≤ p.r1) c.LowerBounds := by
    simp only [colors, List.mem_cons, List.mem_singleton, List.not_mem_nil, or_false] at hc
    rcases hc with rfl | rfl | rfl | rfl | rfl | rfl | rfl | rfl <;>
      simp [Monochrome, Red, Orange, Yellow, Green, Blue, Purple, Pink]
  obtain ⟨q, hq, hq0⟩ := hs0
  obtain ⟨q1, hq1, hq2⟩ := hb0
  have h1 := hall q hq
  have h2 := hall q1 hq1
  exact ⟨hlen.1, hlen.2.1, hlen.2.2, sr, br, hsr, hbr, hall, ⟨q, hq, hq0⟩, hs1, ⟨q1, hq1, hq2⟩,
    hb1, by omega, by omega⟩

theorem table_curves_ordered_witness :
    Red ∈ colors ∧
      (2 ≤ Red.LowerBounds.length ∧
      List.Chain' (fun p q => p.r0 < q.r0) Red.LowerBounds ∧
      List.Chain' (fun p q => q.r1 ≤ p.r1) Red.LowerBounds ∧
      ∃ sr br, Red.SaturationRange = some sr ∧ Red.BrightnessRange = some br ∧
        (∀ p ∈ Red.LowerBounds, sr.r0 ≤ p.r0 ∧ p.r0 ≤ sr.r1 ∧ br.r0 ≤ p.r1 ∧ p.r1 ≤ br.r1) ∧
        (∃ p ∈ Red.LowerBounds, p.r0 = sr.r0) ∧ (∃ p ∈ Red.LowerBounds, p.r0 = sr.r1) ∧
        (∃ p ∈ Red.LowerBounds, p.r1 = br.r0) ∧ (∃ p ∈ Red.LowerBounds, p.r1 = br.r1) ∧
        sr.r0 ≤ sr.r1 ∧ br.r0 ≤ br.r1) :=
  ⟨by decide, table_curves_ordered Red (by decide)⟩

/-! ## The fallback of the hue lookup -/

theorem ColorInfo_eq_loop (hue : Int) : ColorInfo hue = (ColorInfo.loop hue).getD Monochrome :=
  rfl

theorem find_hue_none_iff (n : Int) :
    colors.find? (fun color => decide (n ≥ color.HueRange.r0 ∧ n ≤ color.HueRange.r1)) = none
      ↔ n < -26 ∨ 334 < n := by
  rw [List.find?_eq_none]
  simp only [colors, List.mem_cons, List.mem_singleton, List.not_mem_nil, or_false,
    forall_eq_or_imp, forall_eq, Monochrome, Red, Orange, Yellow, Green, Blue, Purple, Pink,
    decide_eq_true_eq]
  omega

/-- C19: for every hue `h` of `[0, 360]` the loop of `ColorInfo` returns a table entry whose
`HueRange` contains the normalised hue (`h - 360` when `334 ≤ h ≤ 360`, otherwise `h`), so
the trailing `return Monochrome` does not run; it runs exactly when `h < -26` or `h > 360`. -/
theorem colorInfo_fallback_iff (h : Int) :
    ColorInfo h = (ColorInfo.loop h).getD Monochrome ∧
      (ColorInfo.loop h = none ↔ h < -26 ∨ 360 < h) ∧
      (0 ≤ h → h ≤ 360 → ∃ c, ColorInfo.loop h = some c ∧ ColorInfo h = c ∧ c ∈ colors ∧
        c.HueRange.r0 ≤ (if 334 ≤ h ∧ h ≤ 360 then h - 360 else h) ∧
        (if 334 ≤ h ∧ h ≤ 360 then h - 360 else h) ≤ c.HueRange.r1) := by
  have hnone : ColorInfo.loop h = none ↔ h < -26 ∨ 360 < h := by
    unfold ColorInfo.loop
    by_cases hf : h ≥ 334 ∧ h ≤ 360
    · simp only [hf, and_self, if_true]
      rw [find_hue_none_iff]; omega
    · simp only [hf, if_false]
      rw [find_hue_none_iff]; omega
  refine ⟨rfl, hnone, ?_⟩
  intro h0 h360
  cases hfind : ColorInfo.loop h with
  | none => rw [hnone] at hfind; omega
  | some c =>
    refine ⟨c, rfl, by rw [ColorInfo_eq_loop, hfind]; rfl, ?_⟩
    have hfind2 : colors.find? (fun color =>
        decide ((if h ≥ 334 ∧ h ≤ 360 then h - 360 else h) ≥ color.HueRange.r0 ∧
          (if h ≥ 334 ∧ h ≤ 360 then h - 360 else h) ≤ color.HueRange.r1)) = some c := hfind
    have hmem : c ∈ colors := List.mem_of_find?_eq_some hfind2
    have hp := List.find?_some hfind2
    simp only [decide_eq_true_eq] at hp
    exact ⟨hmem, hp.1, hp.2⟩

theorem colorInfo_fallback_iff_witness :
    (0 : Int) ≤ 350 ∧ (350 : Int) ≤ 360 ∧ ∃ c, ColorInfo.loop 350 = some c ∧
      ColorInfo 350 = c ∧ c ∈ colors ∧
      c.HueRange.r0 ≤ (if (334 : Int) ≤ 350 ∧ (350 : Int) ≤ 360 then 350 - 360 else 350) ∧
      (if (334 : Int) ≤ 350 ∧ (350 : Int) ≤ 360 then 350 - 360 else 350) ≤ c.HueRange.r1 :=
  ⟨by decide, by decide, (colorInfo_fallback_iff 350).2.2 (by decide) (by decide)⟩

/-! ## Sampled ranges -/

theorem randWithin_none_iff (r : Range) (g : Rng) : randWithin r g = none ↔ r.r1 < r.r0 := by
  unfold randWithin Intn
  by_cases hn : r.r1 + 1 - r.r0 ≤ 0
  · simp only [hn, if_true]; constructor
    · intro _; omega
    · intro _; trivial
  · simp only [hn, if_false]; constructor
    · intro h; exact absurd h (by simp)
    · intro h; omega

theorem setSaturation_eq_arg (o : Options) (g : Rng) (r : Range)
    (hr : setSaturationArg o = some r) : setSaturation o g = randWithin r g := by
  unfold setSaturationArg at hr
  unfold setSaturation
  by_cases hm : o.Color = some ColorPtr.monochrome
  · simp [hm] at hr
  · simp only [hm, if_false] at hr ⊢
    cases hsr : o.SaturationRange with
    | none => simp [hsr] at hr
    | some sr =>
      simp only [hsr] at hr ⊢
      split_ifs at hr ⊢ <;> (cases hr; rfl)

theorem setBrightness_eq_arg (o : Options) (g : Rng) (r : Range)
    (hr : setBrightnessArg o = some r) : setBrightness o g = randWithin r g := by
  unfold setBrightnessArg at hr
  unfold setBrightness
  cases hmin : o.MinimumBrightness with
  | none => simp [hmin] at hr
  | some bMin =>
    simp only [hmin] at hr ⊢
    split_ifs at hr ⊢ <;> (cases hr; rfl)

theorem setSaturationArg_ordered (o : Options) (ho : o.FromTable)
    (hm : o.Color ≠ some ColorPtr.monochrome) :
    ∃ r, setSaturationArg o = some r ∧ r.r0 ≤ r.r1 := by
  obtain ⟨c, hc, hsat, _⟩ := FromTable_family o ho
  obtain ⟨sr, hsr, h0, h30, h100⟩ := colors_saturationRange c hc
  unfold setSaturationArg
  simp only [hm, if_false, hsat.trans hsr]
  split_ifs
  · exact ⟨_, rfl, show (55 : Int) ≤ sr.r1 by omega⟩
  · exact ⟨_, rfl, show sr.r1 - 10 ≤ sr.r1 by omega⟩
  · exact ⟨_, rfl, show sr.r0 ≤ 55 by omega⟩
  · exact ⟨_, rfl, show (0 : Int) ≤ 100 by decide⟩
  · exact ⟨_, rfl, show sr.r0 ≤ sr.r1 by omega⟩

theorem setBrightnessArg_ordered (o : Options) (ho : o.FromTable) :
    ∃ r, setBrightnessArg o = some r ∧ r.r0 ≤ r.r1 := by
  obtain ⟨bMin, hmin, hge, hle⟩ := MinimumBrightness_total o ho
  unfold setBrightnessArg
  simp only [hmin]
  split_ifs
  · exact ⟨_, rfl, show bMin ≤ bMin + 20 by omega⟩
  · exact ⟨_, rfl, tdiv_two_le _ (by omega)⟩
  · exact ⟨_, rfl, hle⟩
  · exact ⟨_, rfl, show (0 : Int) ≤ 100 by decide⟩

theorem colors_divisors (c : Color) (hc : c ∈ colors) :
    ∀ seg ∈ c.LowerBounds.zip c.LowerBounds.tail, seg.2.r0 - seg.1.r0 ≠ 0 := by
  simp only [colors, List.mem_cons, List.mem_singleton, List.not_mem_nil, or_false] at hc
  rcases hc with rfl | rfl | rfl | rfl | rfl | rfl | rfl | rfl <;> decide

/-- C18: on every table option `NewColor` never samples an empty range and never divides by
zero: the ranges that `setHue`, `setSaturation` and `setBrightness` pass to `randWithin` have
`low ≤ high` whatever the earlier draws were, every `s2 - s1` of the resolved curve is
non-zero, and all three steps and `NewColor` return. -/
theorem newColor_ranges_ordered (o : Options) (g : Rng) (ho : o.FromTable) :
    ∃ h s b g1 g2 g3,
      (o.HueRange.r0 ≤ o.HueRange.r1 ∧ setHue o g = some (h, g1)) ∧
      (o.Color = some ColorPtr.monochrome ∨
        ∃ r, setSaturationArg { o with Hue := h } = some r ∧ r.r0 ≤ r.r1 ∧
          setSaturation { o with Hue := h } g1 = randWithin r g1) ∧
      setSaturation { o with Hue := h } g1 = some (s, g2) ∧
      (∃ r, setBrightnessArg { o with Hue := h, saturation := s } = some r ∧ r.r0 ≤ r.r1 ∧
        setBrightness { o with Hue := h, saturation := s } g2 = randWithin r g2) ∧
      setBrightness { o with Hue := h, saturation := s } g2 = some (b, g3) ∧
      (∀ seg ∈ (Options.lowerBounds { o with Hue := h, saturation := s }).zip
          (Options.lowerBounds { o with Hue := h, saturation := s }).tail,
        seg.2.r0 - seg.1.r0 ≠ 0) ∧
      NewColor o g =
        some ({ H := h, S := s, B := b, HueRange := ⟨0, 0⟩, LowerBounds := [] }, g3) := by
  obtain ⟨h, s, b, bMin, g1, g2, g3, hh, hs, _, hb, hnew, _⟩ := NewColor_steps o g ho
  have ho1 : Options.FromTable { o with Hue := h } := ho
  have ho2 : Options.FromTable { o with Hue := h, saturation := s } := ho
  refine ⟨h, s, b, g1, g2, g3, ⟨(FromTable_hueRange o ho).2.1, hh⟩, ?_, hs, ?_, hb, ?_, hnew⟩
  · by_cases hm : o.Color = some ColorPtr.monochrome
    · exact Or.inl hm
    · obtain ⟨r, hr, hord⟩ := setSaturationArg_ordered { o with Hue := h } ho1 hm
      exact Or.inr ⟨r, hr, hord, setSaturation_eq_arg _ g1 r hr⟩
  · obtain ⟨r, hr, hord⟩ := setBrightnessArg_ordered { o with Hue := h, saturation := s } ho2
    exact ⟨r, hr, hord, setBrightness_eq_arg _ g2 r hr⟩
  · obtain ⟨c, hc, _, hlb⟩ := FromTable_family { o with Hue := h, saturation := s } ho2
    rw [hlb]
    exact colors_divisors c hc

theorem newColor_ranges_ordered_witness :
    Options.FromTable { Hue := 0, Luminosity := "dark", Color := none, saturation := 0 } ∧
      ∃ h s b g1 g2 g3,
        ((Options.HueRange { Hue := 0, Luminosity := "dark", Color := none, saturation := 0 }).r0
            ≤ (Options.HueRange
              { Hue := 0, Luminosity := "dark", Color := none, saturation := 0 }).r1 ∧
          setHue { Hue := 0, Luminosity := "dark", Color := none, saturation := 0 }
            (draws [360, 3, 20]) = some (h, g1)) ∧
        ((none : Option ColorPtr) = some ColorPtr.monochrome ∨
          ∃ r, setSaturationArg { Hue := h, Luminosity := "dark", Color := none, saturation := 0 }
              = some r ∧ r.r0 ≤ r.r1 ∧
            setSaturation { Hue := h, Luminosity := "dark", Color := none, saturation := 0 } g1
              = randWithin r g1) ∧
        setSaturation { Hue := h, Luminosity := "dark", Color := none, saturation := 0 } g1
          = some (s, g2) ∧
        (∃ r, setBrightnessArg { Hue := h, Luminosity := "dark", Color := none, saturation := s }
            = some r ∧ r.r0 ≤ r.r1 ∧
          setBrightness { Hue := h, Luminosity := "dark", Color := none, saturation := s } g2
            = randWithin r g2) ∧
        setBrightness { Hue := h, Luminosity := "dark", Color := none, saturation := s } g2
          = some (b, g3) ∧
        (∀ seg ∈ (Options.lowerBounds
              { Hue := h, Luminosity := "dark", Color := none, saturation := s }).zip
            (Options.lowerBounds
              { Hue := h, Luminosity := "dark", Color := none, saturation := s }).tail,
          seg.2.r0 - seg.1.r0 ≠ 0) ∧
        NewColor { Hue := 0, Luminosity := "dark", Color := none, saturation := 0 }
            (draws [360, 3, 20]) =
          some ({ H := h, S := s, B := b, HueRange := ⟨0, 0⟩, LowerBounds := [] }, g3) :=
  ⟨Or.inl rfl,
    newColor_ranges_ordered { Hue := 0, Luminosity := "dark", Color := none, saturation := 0 }
      (draws [360, 3, 20]) (Or.inl rfl)⟩

/-! ## Rounding to float64 -/

theorem roundHalfEven_intCast (n : ℤ) : roundHalfEven (n : ℚ) = n := by
  simp [roundHalfEven]

theorem roundHalfEven_le_of_le (q : ℚ) (n : ℤ) (h : q ≤ n) : roundHalfEven q ≤ n := by
  have hf : ⌊q⌋ ≤ n := by exact_mod_cast (Int.floor_le q).trans h
  have hfl := Int.floor_le q
  have hlt := Int.lt_floor_add_one q
  unfold roundHalfEven
  rcases lt_or_eq_of_le hf with hlt2 | heq
  · split_ifs <;> omega
  · have hq : q = (n : ℚ) := le_antisymm h (by rw [← heq]; exact hfl)
    subst hq
    simp

theorem roundHalfEven_ge_of_le (q : ℚ) (n : ℤ) (h : (n : ℚ) ≤ q) : n ≤ roundHalfEven q := by
  have hf : n ≤ ⌊q⌋ := Int.le_floor.mpr h
  unfold roundHalfEven
  split_ifs <;> omega

theorem roundHalfEven_mono {x y : ℚ} (h : x ≤ y) : roundHalfEven x ≤ roundHalfEven y := by
  have hf : ⌊x⌋ ≤ ⌊y⌋ := Int.floor_mono h
  rcases lt_or_eq_of_le hf with hlt | heq
  · have h1 : roundHalfEven x ≤ ⌊x⌋ + 1 := by
      unfold roundHalfEven; split_ifs <;> omega
    have h2 : ⌊y⌋ ≤ roundHalfEven y := by
      unfold roundHalfEven; split_ifs <;> omega
    omega
  · unfold roundHalfEven
    rw [← heq]
    have hxy : x - ⌊x⌋ ≤ y - ⌊x⌋ := by linarith
    split_ifs <;> first | omega | linarith

theorem roundHalfEven_eq_of_near (y : ℚ) (m : ℤ) (h1 : (m : ℚ) - 1 / 2 < y)
    (h2 : y < (m : ℚ) + 1 / 2) : roundHalfEven y = m := by
  rcases le_or_lt (m : ℚ) y with hge | hlt
  · have hf : ⌊y⌋ = m := by
      rw [Int.floor_eq_iff]; constructor <;> linarith
    unfold roundHalfEven
    rw [hf, if_pos (by linarith)]
  · have hf : ⌊y⌋ = m - 1 := by
      rw [Int.floor_eq_iff]; push_cast; constructor <;> linarith
    unfold roundHalfEven
    rw [hf]
    push_cast
    rw [if_neg (by linarith), if_pos (by linarith)]
    ring

theorem two_zpow_pos (k : ℤ) : (0 : ℚ) < 2 ^ k := by positivity

theorem two_zpow_natCast (n : ℕ) : ((2 ^ n : ℤ) : ℚ) = (2 : ℚ) ^ (n : ℤ) := by
  push_cast
  rw [zpow_natCast]

theorem roundHalfEven_le_zpow (q : ℚ) (k : ℤ) (hk : 0 ≤ k) (h : q ≤ 2 ^ k) :
    (roundHalfEven q : ℚ) ≤ 2 ^ k := by
  lift k to ℕ using hk
  rw [← two_zpow_natCast] at h ⊢
  exact_mod_cast roundHalfEven_le_of_le q _ h

theorem zpow_le_roundHalfEven (q : ℚ) (k : ℤ) (hk : 0 ≤ k) (h : 2 ^ k ≤ q) :
    (2 : ℚ) ^ k ≤ (roundHalfEven q : ℚ) := by
  lift k to ℕ using hk
  rw [← two_zpow_natCast] at h ⊢
  exact_mod_cast roundHalfEven_ge_of_le q _ h

theorem ulpExp_ge (q : ℚ) : -1074 ≤ ulpExp q := by
  unfold ulpExp
  have := le_max_right (Int.log 2 |q|) (-1022)
  omega

theorem ulpExp_mono {x y : ℚ} (hx : 0 < x) (h : x ≤ y) : ulpExp x ≤ ulpExp y := by
  unfold ulpExp
  have hy : 0 < y := lt_of_lt_of_le hx h
  rw [abs_of_pos hx, abs_of_pos hy]
  have := Int.log_mono_right (b := 2) hx h
  have := max_le_max this (le_refl (-1022 : ℤ))
  omega

theorem fl_zero : fl 0 = 0 := by
  simp [fl, roundHalfEven]

theorem fl_nonneg {x : ℚ} (hx : 0 ≤ x) : 0 ≤ fl x := by
  unfold fl
  have h1 : (0 : ℚ) ≤ x / 2 ^ ulpExp x := div_nonneg hx (two_zpow_pos _).le
  have h2 : (0 : ℤ) ≤ roundHalfEven (x / 2 ^ ulpExp x) :=
    roundHalfEven_ge_of_le _ 0 (by simpa using h1)
  have h3 : (0 : ℚ) ≤ (roundHalfEven (x / 2 ^ ulpExp x) : ℚ) := by exact_mod_cast h2
  exact mul_nonneg h3 (two_zpow_pos _).le

theorem log_lt_of_lt_zpow {x : ℚ} (hx : 0 < x) (k : ℤ) (h : x < 2 ^ k) : Int.log 2 x < k := by
  have := (Int.lt_zpow_iff_log_lt (b := 2) (by norm_num) hx (x := k)).mp (by simpa using h)
  exact this

theorem le_log_of_zpow_le {x : ℚ} (hx : 0 < x) (k : ℤ) (h : 2 ^ k ≤ x) : k ≤ Int.log 2 x := by
  have := (Int.zpow_le_iff_le_log (b := 2) (by norm_num) hx (x := k)).mp (by simpa using h)
  exact this

theorem zpow_log_le {x : ℚ} (hx : 0 < x) : (2 : ℚ) ^ Int.log 2 x ≤ x := by
  simpa using Int.zpow_log_le_self (b := 2) (by norm_num) hx

theorem lt_zpow_log_succ (x : ℚ) : x < (2 : ℚ) ^ (Int.log 2 x + 1) := by
  simpa using Int.lt_zpow_succ_log_self (b := 2) (by norm_num) x

theorem fl_mono_pos {x y : ℚ} (hx : 0 < x) (h : x ≤ y) : fl x ≤ fl y := by
  have hy : 0 < y := lt_of_lt_of_le hx h
  have hs := ulpExp_mono hx h
  rcases lt_or_eq_of_le hs with hlt | heq
  · -- the two numbers lie in different binades: a power of two separates the roundings
    have hsx := ulpExp_ge x
    have hLy : ulpExp y = Int.log 2 y - 52 := by
      unfold ulpExp at hlt hsx ⊢
      rw [abs_of_pos hy] at hlt ⊢
      rcases max_cases (Int.log 2 y) (-1022) with ⟨h1, _⟩ | ⟨h1, _⟩
      · rw [h1]
      · rw [h1] at hlt; omega
    have hLx : Int.log 2 x + 1 ≤ Int.log 2 y := by
      have : Int.log 2 x - 52 ≤ ulpExp x := by
        unfold ulpExp
        rw [abs_of_pos hx]
        have := le_max_left (Int.log 2 x) (-1022)
        omega
      omega
    have hxlt : x ≤ (2 : ℚ) ^ Int.log 2 y :=
      (lt_zpow_log_succ x).le.trans (zpow_le_zpow_right₀ (by norm_num) hLx)
    have hylow : (2 : ℚ) ^ Int.log 2 y ≤ y := zpow_log_le hy
    have ha : fl x ≤ (2 : ℚ) ^ Int.log 2 y := by
      unfold fl
      have hk : 0 ≤ Int.log 2 y - ulpExp x := by omega
      have h1 : x / 2 ^ ulpExp x ≤ (2 : ℚ) ^ (Int.log 2 y - ulpExp x) := by
        rw [zpow_sub₀ (by norm_num)]
        exact div_le_div_of_nonneg_right hxlt (two_zpow_pos _).le
      have h2 := roundHalfEven_le_zpow _ _ hk h1
      calc (roundHalfEven (x / 2 ^ ulpExp x) : ℚ) * 2 ^ ulpExp x
          ≤ (2 : ℚ) ^ (Int.log 2 y - ulpExp x) * 2 ^ ulpExp x :=
            mul_le_mul_of_nonneg_right h2 (two_zpow_pos _).le
        _ = (2 : ℚ) ^ Int.log 2 y := by
            rw [← zpow_add₀ (by norm_num)]; congr 1; ring
    have hb : (2 : ℚ) ^ Int.log 2 y ≤ fl y := by
      unfold fl
      have h1 : (2 : ℚ) ^ (52 : ℤ) ≤ y / 2 ^ ulpExp y := by
        rw [le_div_iff₀ (two_zpow_pos _), ← zpow_add₀ (by norm_num), hLy]
        have : (52 : ℤ) + (Int.log 2 y - 52) = Int.log 2 y := by ring
        rw [this]
        exact hylow
      have h2 := zpow_le_roundHalfEven _ 52 (by norm_num) h1
      calc (2 : ℚ) ^ Int.log 2 y = (2 : ℚ) ^ (52 : ℤ) * 2 ^ ulpExp y := by
            rw [← zpow_add₀ (by norm_num), hLy]; congr 1; ring
        _ ≤ (roundHalfEven (y / 2 ^ ulpExp y) : ℚ) * 2 ^ ulpExp y :=
            mul_le_mul_of_nonneg_right h2 (two_zpow_pos _).le
    exact ha.trans hb
  · unfold fl
    rw [heq]
    have h1 : x / 2 ^ ulpExp y ≤ y / 2 ^ ulpExp y :=
      div_le_div_of_nonneg_right h (two_zpow_pos _).le
    have h2 : (roundHalfEven (x / 2 ^ ulpExp y) : ℚ) ≤ roundHalfEven (y / 2 ^ ulpExp y) := by
      exact_mod_cast roundHalfEven_mono h1
    exact mul_le_mul_of_nonneg_right h2 (two_zpow_pos _).le

/-- Rounding is monotone on the non-negative numbers. -/
theorem fl_mono {x y : ℚ} (hx : 0 ≤ x) (h : x ≤ y) : fl x ≤ fl y := by
  rcases lt_or_eq_of_le hx with hpos | hzero
  · exact fl_mono_pos hpos h
  · rw [← hzero, fl_zero]
    exact fl_nonneg (hx.trans h)

/-- A number `m * 2 ^ k` with `|m| < 2 ^ 53` and `k` not below the exponent of the
subnormal numbers is a float64: rounding leaves it unchanged. -/
theorem fl_exact (m k : ℤ) (hm : |m| < 2 ^ 53) (hk : -1074 ≤ k) :
    fl ((m : ℚ) * 2 ^ k) = (m : ℚ) * 2 ^ k := by
  by_cases hm0 : m = 0
  · subst hm0; simp [fl_zero]
  have hmq : (0 : ℚ) < |(m : ℚ)| := abs_pos.mpr (by exact_mod_cast hm0)
  have habs : |(m : ℚ) * 2 ^ k| = |(m : ℚ)| * 2 ^ k := by
    rw [abs_mul, abs_of_pos (two_zpow_pos k)]
  have hxpos : (0 : ℚ) < |(m : ℚ) * 2 ^ k| := by
    rw [habs]; exact mul_pos hmq (two_zpow_pos k)
  have hmlt : |(m : ℚ)| < 2 ^ (53 : ℤ) := by
    have : ((|m| : ℤ) : ℚ) < ((2 ^ 53 : ℤ) : ℚ) := by exact_mod_cast hm
    rw [Int.cast_abs] at this
    calc |(m : ℚ)| < ((2 ^ 53 : ℤ) : ℚ) := this
      _ = 2 ^ (53 : ℤ) := by norm_num
  have hxlt : |(m : ℚ) * 2 ^ k| < 2 ^ (k + 53) := by
    rw [habs, zpow_add₀ (by norm_num), mul_comm ((2 : ℚ) ^ k)]
    exact mul_lt_mul_of_pos_right hmlt (two_zpow_pos k)
  have hL := log_lt_of_lt_zpow hxpos _ hxlt
  have hs : ulpExp ((m : ℚ) * 2 ^ k) ≤ k := by
    unfold ulpExp
    rcases max_cases (Int.log 2 |(m : ℚ) * 2 ^ k|) (-1022) with ⟨h1, _⟩ | ⟨h1, _⟩ <;>
      rw [h1] <;> omega
  obtain ⟨n, hn⟩ : ∃ n : ℕ, k - ulpExp ((m : ℚ) * 2 ^ k) = n :=
    ⟨(k - ulpExp ((m : ℚ) * 2 ^ k)).toNat, (Int.toNat_of_nonneg (by omega)).symm⟩
  have hdiv : (m : ℚ) * 2 ^ k / 2 ^ ulpExp ((m : ℚ) * 2 ^ k) = ((m * 2 ^ n : ℤ) : ℚ) := by
    rw [mul_div_assoc, ← zpow_sub₀ (by norm_num), hn]
    push_cast
    rw [zpow_natCast]
  unfold fl
  rw [hdiv, roundHalfEven_intCast]
  push_cast
  rw [mul_assoc, ← zpow_natCast, ← hn, ← zpow_add₀ (by norm_num)]
  congr 2
  ring

/-- The rounded value is an integer of at most 53 bits times the power of two of the last
place. -/
theorem fl_repr (x : ℚ) :
    ∃ n : ℤ, -(2 ^ 53) ≤ n ∧ n ≤ 2 ^ 53 ∧ fl x = (n : ℚ) * 2 ^ ulpExp x := by
  refine ⟨roundHalfEven (x / 2 ^ ulpExp x), ?_, ?_, rfl⟩
  all_goals
    have hlt := lt_zpow_log_succ |x|
    have hle : (2 : ℚ) ^ (Int.log 2 |x| + 1) ≤ 2 ^ (ulpExp x + 53) := by
      apply zpow_le_zpow_right₀ (by norm_num)
      unfold ulpExp
      have := le_max_left (Int.log 2 |x|) (-1022)
      omega
    have habs : |x| < 2 ^ (ulpExp x + 53) := lt_of_lt_of_le hlt hle
    rw [zpow_add₀ (by norm_num)] at habs
    have hpos := two_zpow_pos (ulpExp x)
    have h53 : ((2 ^ 53 : ℤ) : ℚ) = 2 ^ (53 : ℤ) := by norm_num
    have hx := abs_lt.mp habs
  · apply roundHalfEven_ge_of_le
    rw [le_div_iff₀ hpos]
    push_cast
    have : -(2 ^ ulpExp x * (2 : ℚ) ^ (53 : ℤ)) < x := hx.1
    have h2 : (2 : ℚ) ^ (53 : ℤ) = 2 ^ 53 := by norm_num
    rw [h2] at this
    linarith
  · apply roundHalfEven_le_of_le
    rw [div_le_iff₀ hpos]
    push_cast
    have : x < 2 ^ ulpExp x * (2 : ℚ) ^ (53 : ℤ) := hx.2
    have h2 : (2 : ℚ) ^ (53 : ℤ) = 2 ^ 53 := by norm_num
    rw [h2] at this
    linarith

/-- Rounding a float64 leaves it unchanged. -/
theorem fl_idem (x : ℚ) : fl (fl x) = fl x := by
  obtain ⟨n, hlo, hhi, hx⟩ := fl_repr x
  have hs := ulpExp_ge x
  rw [hx]
  rcases lt_or_eq_of_le hhi with hlt | heq
  · rcases lt_or_eq_of_le hlo with hgt | heq2
    · exact fl_exact n _ (abs_lt.mpr ⟨hgt, hlt⟩) hs
    · have hrew : (n : ℚ) * 2 ^ ulpExp x = ((-(2 ^ 52) : ℤ) : ℚ) * 2 ^ (ulpExp x + 1) := by
        rw [← heq2, zpow_add₀ (by norm_num)]; push_cast; ring
      rw [hrew]
      exact fl_exact _ _ (by norm_num) (by omega)
  · have hrew : (n : ℚ) * 2 ^ ulpExp x = ((2 ^ 52 : ℤ) : ℚ) * 2 ^ (ulpExp x + 1) := by
      rw [heq, zpow_add₀ (by norm_num)]; push_cast; ring
    rw [hrew]
    exact fl_exact _ _ (by norm_num) (by omega)

/-- Evaluation of a rounding: when `2 ^ e ≤ q < 2 ^ (e + 1)` and the integer `m` is within
less than one half of `q / 2 ^ (e - 52)`, the float64 nearest to `q` is `m * 2 ^ (e - 52)`. -/
theorem fl_eval (q : ℚ) (e m : ℤ) (he : -1022 ≤ e) (h1 : 2 ^ e ≤ q) (h2 : q < 2 ^ (e + 1))
    (h3 : (m : ℚ) - 1 / 2 < q / 2 ^ (e - 52)) (h4 : q / 2 ^ (e - 52) < (m : ℚ) + 1 / 2) :
    fl q = (m : ℚ) * 2 ^ (e - 52) := by
  have hq : 0 < q := lt_of_lt_of_le (two_zpow_pos e) h1
  have hlog : Int.log 2 |q| = e := by
    rw [abs_of_pos hq]
    have ha := le_log_of_zpow_le hq e h1
    have hb := log_lt_of_lt_zpow hq (e + 1) h2
    omega
  have hs : ulpExp q = e - 52 := by
    unfold ulpExp
    rw [hlog, max_eq_left he]
  unfold fl
  rw [hs, roundHalfEven_eq_of_near _ m h3 h4]

/-! ## Ranges of the HSB to RGB conversion -/

theorem fl_natCast_small (n : ℕ) (hn : n < 2 ^ 53) : fl (n : ℚ) = n := by
  have h := fl_exact (n : ℤ) 0 (by rw [abs_of_nonneg (by positivity)]; exact_mod_cast hn)
    (by norm_num)
  simpa using h

theorem fl_one : fl 1 = 1 := by simpa using fl_natCast_small 1 (by norm_num)

theorem fl_dyadic (m : ℤ) (n : ℕ) (hm : |m| < 2 ^ 53) (hn : n ≤ 1074) :
    fl ((m : ℚ) / 2 ^ n) = (m : ℚ) / 2 ^ n := by
  have h := fl_exact m (-(n : ℤ)) hm (by omega)
  rw [zpow_neg, zpow_natCast] at h
  simpa [div_eq_mul_inv] using h

theorem fl_unit {x : ℚ} (h0 : 0 ≤ x) (h1 : x ≤ 1) : 0 ≤ fl x ∧ fl x ≤ 1 :=
  ⟨fl_nonneg h0, by simpa [fl_one] using fl_mono h0 h1⟩

theorem mul_unit {x y : ℚ} (hx : 0 ≤ x ∧ x ≤ 1) (hy : 0 ≤ y ∧ y ≤ 1) :
    0 ≤ x * y ∧ x * y ≤ 1 :=
  ⟨mul_nonneg hx.1 hy.1, by nlinarith [hx.1, hx.2, hy.1, hy.2]⟩

theorem one_sub_unit {x : ℚ} (hx : 0 ≤ x ∧ x ≤ 1) : 0 ≤ 1 - x ∧ 1 - x ≤ 1 :=
  ⟨by linarith [hx.2], by linarith [hx.1]⟩

theorem percent_unit (x : ℚ) (h0 : 0 ≤ x) (h1 : x ≤ 100) :
    0 ≤ fl (x / 100) ∧ fl (x / 100) ≤ 1 :=
  fl_unit (by positivity) (by rw [div_le_one (by norm_num)]; exact h1)

/-- A fraction of `[0, 1]` becomes a channel value of `[0, 255]`. -/
theorem channel_in_range {x : ℚ} (hx : 0 ≤ x ∧ x ≤ 1) :
    toUint32 ⌊fl (x * 255)⌋ = some ⌊fl (x * 255)⌋.toNat ∧ ⌊fl (x * 255)⌋.toNat ≤ 255 := by
  have h0 : (0 : ℚ) ≤ x * 255 := by nlinarith [hx.1]
  have h1 : x * 255 ≤ ((255 : ℕ) : ℚ) := by push_cast; nlinarith [hx.2]
  have hlo := fl_nonneg h0
  have hhi := fl_mono h0 h1
  rw [fl_natCast_small 255 (by norm_num)] at hhi
  have hf0 : 0 ≤ ⌊fl (x * 255)⌋ := Int.floor_nonneg.mpr hlo
  have hf1 : ⌊fl (x * 255)⌋ ≤ 255 := by
    have : ⌊fl (x * 255)⌋ ≤ ⌊((255 : ℕ) : ℚ)⌋ := Int.floor_mono hhi
    simpa using this
  refine ⟨?_, by omega⟩
  unfold toUint32
  rw [if_pos ⟨hf0, by omega⟩]

theorem rgbFractions_unit (h_i : ℤ) (v p q t : ℚ) (h0 : 0 ≤ h_i) (h5 : h_i ≤ 5)
    (hv : 0 ≤ v ∧ v ≤ 1) (hp : 0 ≤ p ∧ p ≤ 1) (hq : 0 ≤ q ∧ q ≤ 1) (ht : 0 ≤ t ∧ t ≤ 1) :
    (0 ≤ (rgbFractions h_i v p q t).1 ∧ (rgbFractions h_i v p q t).1 ≤ 1) ∧
      (0 ≤ (rgbFractions h_i v p q t).2.1 ∧ (rgbFractions h_i v p q t).2.1 ≤ 1) ∧
      (0 ≤ (rgbFractions h_i v p q t).2.2 ∧ (rgbFractions h_i v p q t).2.2 ≤ 1) := by
  unfold rgbFractions
  split_ifs with a0 a1 a2 a3 a4 a5
  · exact ⟨hv, ht, hp⟩
  · exact ⟨hq, hv, hp⟩
  · exact ⟨hp, hv, ht⟩
  · exact ⟨hp, hq, hv⟩
  · exact ⟨ht, hp, hv⟩
  · exact ⟨hv, hp, hq⟩
  · omega

/-- A float64 below 360 is at most the float64 just below it, `360 - 2 ^ (-44)`. -/
theorem float64_below_360 (H : ℚ) (hf : IsFloat64 H) (h : H < 360) :
    H ≤ ((360 * 2 ^ 44 - 1 : ℤ) : ℚ) / 2 ^ 44 := by
  rcases lt_or_le H 256 with hlt | hge
  · have : (256 : ℚ) ≤ ((360 * 2 ^ 44 - 1 : ℤ) : ℚ) / 2 ^ 44 := by norm_num
    linarith
  · have hpos : (0 : ℚ) < H := by linarith
    have hlog : Int.log 2 |H| = 8 := by
      rw [abs_of_pos hpos]
      have ha := le_log_of_zpow_le hpos 8 (by norm_num; linarith)
      have hb := log_lt_of_lt_zpow hpos 9 (by norm_num; linarith)
      omega
    have hs : ulpExp H = -44 := by
      unfold ulpExp; rw [hlog]; norm_num
    obtain ⟨n, _, _, hn⟩ := fl_repr H
    rw [hf, hs] at hn
    have hn2 : H = (n : ℚ) / 2 ^ 44 := by
      rw [hn, zpow_neg]; norm_num [div_eq_mul_inv]
    have hlt : (n : ℚ) < ((360 * 2 ^ 44 : ℤ) : ℚ) := by
      rw [hn2, div_lt_iff₀ (by norm_num)] at h
      push_cast; linarith
    have hlt2 : n < 360 * 2 ^ 44 := by exact_mod_cast hlt
    have hle : n ≤ 360 * 2 ^ 44 - 1 := by omega
    rw [hn2]
    apply div_le_div_of_nonneg_right _ (by norm_num)
    exact_mod_cast hle

theorem fl_below_one :
    fl (((360 * 2 ^ 44 - 1 : ℤ) : ℚ) / 2 ^ 44 / 360) = ((2 ^ 53 - 1 : ℤ) : ℚ) * 2 ^ ((-1 : ℤ) - 52) :=
  fl_eval _ (-1) (2 ^ 53 - 1) (by norm_num) (by norm_num) (by norm_num) (by norm_num)
    (by norm_num)

theorem fl_below_six :
    fl (((2 ^ 53 - 1 : ℤ) : ℚ) * 2 ^ ((-1 : ℤ) - 52) * 6)
      = ((6 * 2 ^ 50 - 1 : ℤ) : ℚ) * 2 ^ ((2 : ℤ) - 52) :=
  fl_eval _ 2 (6 * 2 ^ 50 - 1) (by norm_num) (by norm_num) (by norm_num) (by norm_num)
    (by norm_num)

theorem hueFraction_zero : hueFraction 0 = fl (1 / 360) := by
  simp [hueFraction]

theorem hueFraction_one : hueFraction 1 = fl (1 / 360) := by
  simp [hueFraction]

theorem hueFraction_360 : hueFraction 360 = fl (359 / 360) := by
  norm_num [hueFraction]

theorem hueFraction_359 : hueFraction 359 = fl (359 / 360) := by
  norm_num [hueFraction]

theorem hueFraction_inner (H : ℚ) (hz : H ≠ 0) (hm : H ≠ 360) : hueFraction H = fl (H / 360) := by
  simp [hueFraction, hz, hm]

theorem hueFraction_bounds (H : ℚ) (hf : IsFloat64 H) (h0 : 0 ≤ H) (h1 : H ≤ 360) :
    0 ≤ hueFraction H ∧ hueFraction H ≤ ((2 ^ 53 - 1 : ℤ) : ℚ) * 2 ^ ((-1 : ℤ) - 52) := by
  have key : ∀ x : ℚ, 0 ≤ x → x ≤ ((360 * 2 ^ 44 - 1 : ℤ) : ℚ) / 2 ^ 44 →
      0 ≤ fl (x / 360) ∧ fl (x / 360) ≤ ((2 ^ 53 - 1 : ℤ) : ℚ) * 2 ^ ((-1 : ℤ) - 52) := by
    intro x hx1 hx2
    have hpos : (0 : ℚ) ≤ x / 360 := by positivity
    refine ⟨fl_nonneg hpos, ?_⟩
    have := fl_mono hpos (div_le_div_of_nonneg_right hx2 (by norm_num : (0 : ℚ) ≤ 360))
    rw [fl_below_one] at this
    exact this
  by_cases hz : H = 0
  · rw [hz, hueFraction_zero]
    exact key 1 (by norm_num) (by norm_num)
  · by_cases hm : H = 360
    · rw [hm, hueFraction_360]
      exact key 359 (by norm_num) (by norm_num)
    · rw [hueFraction_inner H hz hm]
      exact key H h0 (float64_below_360 H hf (lt_of_le_of_ne h1 hm))

theorem sector_bounds (H : ℚ) (hf : IsFloat64 H) (h0 : 0 ≤ H) (h1 : H ≤ 360) :
    0 ≤ sector H ∧ sector H ≤ 5 ∧ 0 ≤ fl (hueFraction H * 6) - sector H ∧
      fl (hueFraction H * 6) - sector H ≤ 1 := by
  obtain ⟨ha, hb⟩ := hueFraction_bounds H hf h0 h1
  have hpos : (0 : ℚ) ≤ hueFraction H * 6 := by linarith
  have hle : hueFraction H * 6 ≤ ((2 ^ 53 - 1 : ℤ) : ℚ) * 2 ^ ((-1 : ℤ) - 52) * 6 := by linarith
  have h6 := fl_mono hpos hle
  rw [fl_below_six] at h6
  have h6b : fl (hueFraction H * 6) < 6 := by
    calc fl (hueFraction H * 6) ≤ ((6 * 2 ^ 50 - 1 : ℤ) : ℚ) * 2 ^ ((2 : ℤ) - 52) := h6
      _ < 6 := by norm_num
  have hnn := fl_nonneg hpos
  unfold sector
  refine ⟨Int.floor_nonneg.mpr hnn, ?_, ?_, ?_⟩
  · have : ⌊fl (hueFraction H * 6)⌋ < 6 := by
      rw [Int.floor_lt]; exact_mod_cast h6b
    omega
  · linarith [Int.floor_le (fl (hueFraction H * 6))]
  · linarith [Int.lt_floor_add_one (fl (hueFraction H * 6))]

theorem fractions_unit (H S B : ℚ) (hf : IsFloat64 H) (hH : 0 ≤ H ∧ H ≤ 360)
    (hS : 0 ≤ S ∧ S ≤ 100) (hB : 0 ≤ B ∧ B ≤ 100) :
    (0 ≤ (fractions H S B).1 ∧ (fractions H S B).1 ≤ 1) ∧
      (0 ≤ (fractions H S B).2.1 ∧ (fractions H S B).2.1 ≤ 1) ∧
      (0 ≤ (fractions H S B).2.2 ∧ (fractions H S B).2.2 ≤ 1) := by
  obtain ⟨hs0, hs5, hf0, hf1⟩ := sector_bounds H hf hH.1 hH.2
  have hs := percent_unit S hS.1 hS.2
  have hv := percent_unit B hB.1 hB.2
  have hfr := fl_unit hf0 hf1
  have hp := fl_unit (mul_unit hv (fl_unit (one_sub_unit hs).1 (one_sub_unit hs).2)).1
    (mul_unit hv (fl_unit (one_sub_unit hs).1 (one_sub_unit hs).2)).2
  have hfs := fl_unit (mul_unit hfr hs).1 (mul_unit hfr hs).2
  have hq1 := fl_unit (one_sub_unit hfs).1 (one_sub_unit hfs).2
  have hq := fl_unit (mul_unit hv hq1).1 (mul_unit hv hq1).2
  have h1f := fl_unit (one_sub_unit hfr).1 (one_sub_unit hfr).2
  have h1fs := fl_unit (mul_unit h1f hs).1 (mul_unit h1f hs).2
  have ht1 := fl_unit (one_sub_unit h1fs).1 (one_sub_unit h1fs).2
  have ht := fl_unit (mul_unit hv ht1).1 (mul_unit hv ht1).2
  exact rgbFractions_unit (sector H) _ _ _ _ hs0 hs5 hv hp hq ht

theorem RGBA_of_channels (H S B : ℚ) (r g b : ℕ)
    (hr : toUint32 ⌊fl ((fractions H S B).1 * 255)⌋ = some r)
    (hg : toUint32 ⌊fl ((fractions H S B).2.1 * 255)⌋ = some g)
    (hb : toUint32 ⌊fl ((fractions H S B).2.2 * 255)⌋ = some b) :
    RGBA H S B = some (r, g, b, 1) := by
  unfold RGBA
  rw [hr, hg, hb]

theorem isFloat64_int (n : ℤ) (hn : |n| < 2 ^ 53) : IsFloat64 (n : ℚ) := by
  have h := fl_exact n 0 hn (by norm_num)
  simpa [IsFloat64] using h

/-- C13: `RGBA` is total on valid colours and stays in range: for all float64 values
`0 ≤ H ≤ 360`, `0 ≤ S ≤ 100`, `0 ≤ B ≤ 100` of the fields, integers or not, the sector index
`h_i` is one of `0..5`, so the `256.0` triple is not what is scaled, and `RGBA` returns `r`,
`g`, `b` of `[0, 255]` with alpha `1`. -/
theorem rgba_total_in_range (H S B : ℚ) (hf : IsFloat64 H) (hH : 0 ≤ H ∧ H ≤ 360)
    (hS : 0 ≤ S ∧ S ≤ 100) (hB : 0 ≤ B ∧ B ≤ 100) :
    0 ≤ sector H ∧ sector H ≤ 5 ∧ fractions H S B ≠ (256, 256, 256) ∧
      ∃ r g b, RGBA H S B = some (r, g, b, 1) ∧ r ≤ 255 ∧ g ≤ 255 ∧ b ≤ 255 := by
  obtain ⟨hs0, hs5, _, _⟩ := sector_bounds H hf hH.1 hH.2
  obtain ⟨h1, h2, h3⟩ := fractions_unit H S B hf hH hS hB
  obtain ⟨hr, hr255⟩ := channel_in_range h1
  obtain ⟨hg, hg255⟩ := channel_in_range h2
  obtain ⟨hb, hb255⟩ := channel_in_range h3
  refine ⟨hs0, hs5, ?_, _, _, _, RGBA_of_channels H S B _ _ _ hr hg hb, hr255, hg255, hb255⟩
  intro h256
  rw [h256] at h1
  norm_num at h1

/-! ## Channel values -/

/-- The floor of a rounded value that lies between an integer `k` and `k + 1 - 2 ^ (-10)`. -/
theorem floor_fl_eq (y : ℚ) (k : ℤ) (hk0 : 0 ≤ k) (hk1 : k < 2 ^ 40) (h1 : (k : ℚ) ≤ y)
    (h2 : y ≤ ((1024 * k + 1023 : ℤ) : ℚ) / 2 ^ 10) : ⌊fl y⌋ = k := by
  have hk : (0 : ℚ) ≤ k := by exact_mod_cast hk0
  have e1 : fl ((k : ℚ) / 2 ^ 0) = (k : ℚ) / 2 ^ 0 :=
    fl_dyadic k 0 (by rw [abs_of_nonneg hk0]; omega) (by norm_num)
  simp only [pow_zero, div_one] at e1
  have e2 := fl_dyadic (1024 * k + 1023) 10 (by rw [abs_of_nonneg (by omega)]; omega)
    (by norm_num)
  have a := fl_mono hk h1
  have b := fl_mono (hk.trans h1) h2
  rw [e1] at a
  rw [e2] at b
  rw [Int.floor_eq_iff]
  constructor
  · exact a
  · have : ((1024 * k + 1023 : ℤ) : ℚ) / 2 ^ 10 < (k : ℚ) + 1 := by
      push_cast; rw [div_lt_iff₀ (by norm_num)]; norm_num; linarith
    linarith

/-- The channel of a brightness whose exact `255 * B / 100` is not an integer. -/
theorem channel_generic (B k r : ℤ) (hB0 : 0 ≤ B) (hB1 : B ≤ 100) (h : 51 * B = 20 * k + r)
    (hr0 : 1 ≤ r) (hr1 : r ≤ 19) : ⌊fl (fl ((B : ℚ) / 100) * 255)⌋ = k := by
  have hBq0 : (0 : ℚ) ≤ B := by exact_mod_cast hB0
  have hBq1 : (B : ℚ) ≤ 100 := by exact_mod_cast hB1
  have hq : (51 : ℚ) * B = 20 * k + r := by exact_mod_cast h
  have hrq0 : (1 : ℚ) ≤ r := by exact_mod_cast hr0
  have hrq1 : (r : ℚ) ≤ 19 := by exact_mod_cast hr1
  have hk0 : 0 ≤ k := by omega
  have hk1 : k < 2 ^ 40 := by norm_num; omega
  -- a dyadic bracket of width 2 ^ (-20) around B / 100
  have ha0 : 0 ≤ ⌊(B : ℚ) * 2 ^ 20 / 100⌋ := Int.floor_nonneg.mpr (by positivity)
  have ha1 : ⌊(B : ℚ) * 2 ^ 20 / 100⌋ ≤ 2 ^ 20 := by
    have : ⌊(B : ℚ) * 2 ^ 20 / 100⌋ ≤ ⌊((2 ^ 20 : ℤ) : ℚ)⌋ := by
      apply Int.floor_mono
      push_cast
      rw [div_le_iff₀ (by norm_num)]
      nlinarith
    simpa using this
  have hfl := Int.floor_le ((B : ℚ) * 2 ^ 20 / 100)
  have hfl2 := Int.lt_floor_add_one ((B : ℚ) * 2 ^ 20 / 100)
  generalize ⌊(B : ℚ) * 2 ^ 20 / 100⌋ = a at ha0 ha1 hfl hfl2
  have haq0 : (0 : ℚ) ≤ a := by exact_mod_cast ha0
  have hlo : (a : ℚ) / 2 ^ 20 ≤ (B : ℚ) / 100 := by
    rw [div_le_iff₀ (by norm_num)]
    have : (B : ℚ) / 100 * 2 ^ 20 = (B : ℚ) * 2 ^ 20 / 100 := by ring
    rw [this]; exact hfl
  have hhi : (B : ℚ) / 100 ≤ ((a + 1 : ℤ) : ℚ) / 2 ^ 20 := by
    rw [le_div_iff₀ (by norm_num)]
    have : (B : ℚ) / 100 * 2 ^ 20 = (B : ℚ) * 2 ^ 20 / 100 := by ring
    rw [this]; push_cast; exact hfl2.le
  have e1 := fl_dyadic a 20 (by rw [abs_of_nonneg ha0]; omega) (by norm_num)
  have e2 := fl_dyadic (a + 1) 20 (by rw [abs_of_nonneg (by omega)]; omega) (by norm_num)
  have v1 := fl_mono (div_nonneg haq0 (by norm_num)) hlo
  have v2 := fl_mono (div_nonneg hBq0 (by norm_num)) hhi
  rw [e1] at v1
  rw [e2] at v2
  push_cast at v2
  apply floor_fl_eq _ k hk0 hk1
  · rw [div_le_iff₀ (by norm_num)] at v1
    norm_num at hfl hfl2 v1 ⊢
    nlinarith
  · rw [le_div_iff₀ (by norm_num)] at v2 ⊢
    push_cast
    norm_num at hfl hfl2 v2 ⊢
    nlinarith

theorem channel_20 : ⌊fl (fl ((20 : ℚ) / 100) * 255)⌋ = 51 := by
  have h1 : fl ((20 : ℚ) / 100) = (((7205759403792794 : ℤ) : ℚ)) * 2 ^ ((-3 : ℤ) - 52) :=
    fl_eval _ (-3) 7205759403792794 (by norm_num) (by norm_num) (by norm_num) (by norm_num)
      (by norm_num)
  have h2 : fl ((((7205759403792794 : ℤ) : ℚ)) * 2 ^ ((-3 : ℤ) - 52) * 255)
      = (((7177611906121728 : ℤ) : ℚ)) * 2 ^ ((5 : ℤ) - 52) :=
    fl_eval _ 5 7177611906121728 (by norm_num) (by norm_num) (by norm_num) (by norm_num)
      (by norm_num)
  rw [h1, h2]
  norm_num

theorem channel_40 : ⌊fl (fl ((40 : ℚ) / 100) * 255)⌋ = 102 := by
  have h1 : fl ((40 : ℚ) / 100) = (((7205759403792794 : ℤ) : ℚ)) * 2 ^ ((-2 : ℤ) - 52) :=
    fl_eval _ (-2) 7205759403792794 (by norm_num) (by norm_num) (by norm_num) (by norm_num)
      (by norm_num)
  have h2 : fl ((((7205759403792794 : ℤ) : ℚ)) * 2 ^ ((-2 : ℤ) - 52) * 255)
      = (((7177611906121728 : ℤ) : ℚ)) * 2 ^ ((6 : ℤ) - 52) :=
    fl_eval _ 6 7177611906121728 (by norm_num) (by norm_num) (by norm_num) (by norm_num)
      (by norm_num)
  rw [h1, h2]
  norm_num

theorem channel_60 : ⌊fl (fl ((60 : ℚ) / 100) * 255)⌋ = 153 := by
  have h1 : fl ((60 : ℚ) / 100) = (((5404319552844595 : ℤ) : ℚ)) * 2 ^ ((-1 : ℤ) - 52) :=
    fl_eval _ (-1) 5404319552844595 (by norm_num) (by norm_num) (by norm_num) (by norm_num)
      (by norm_num)
  have h2 : fl ((((5404319552844595 : ℤ) : ℚ)) * 2 ^ ((-1 : ℤ) - 52) * 255)
      = (((5383208929591296 : ℤ) : ℚ)) * 2 ^ ((7 : ℤ) - 52) :=
    fl_eval _ 7 5383208929591296 (by norm_num) (by norm_num) (by norm_num) (by norm_num)
      (by norm_num)
  rw [h1, h2]
  norm_num

theorem channel_80 : ⌊fl (fl ((80 : ℚ) / 100) * 255)⌋ = 204 := by
  have h1 : fl ((80 : ℚ) / 100) = (((7205759403792794 : ℤ) : ℚ)) * 2 ^ ((-1 : ℤ) - 52) :=
    fl_eval _ (-1) 7205759403792794 (by norm_num) (by norm_num) (by norm_num) (by norm_num)
      (by norm_num)
  have h2 : fl ((((7205759403792794 : ℤ) : ℚ)) * 2 ^ ((-1 : ℤ) - 52) * 255)
      = (((7177611906121728 : ℤ) : ℚ)) * 2 ^ ((7 : ℤ) - 52) :=
    fl_eval _ 7 7177611906121728 (by norm_num) (by norm_num) (by norm_num) (by norm_num)
      (by norm_num)
  rw [h1, h2]
  norm_num

/-- The channel of a brightness `B` of `[0, 100]`: scaling the rounded `B / 100` by 255,
rounding and flooring gives exactly `floor(255 * B / 100)`. -/
theorem channel_value (B : ℤ) (h0 : 0 ≤ B) (h1 : B ≤ 100) :
    ⌊fl (fl ((B : ℚ) / 100) * 255)⌋ = 255 * B / 100 := by
  have hk : 255 * B / 100 = 51 * B / 20 := by omega
  rw [hk]
  by_cases hr : 51 * B % 20 = 0
  · have hB : B = 0 ∨ B = 20 ∨ B = 40 ∨ B = 60 ∨ B = 80 ∨ B = 100 := by omega
    rcases hB with rfl | rfl | rfl | rfl | rfl | rfl
    · simp [fl_zero]
    · rw [show (((20 : ℤ) : ℚ)) = 20 by norm_num, show (51 : ℤ) * 20 / 20 = 51 by norm_num]
      exact channel_20
    · rw [show (((40 : ℤ) : ℚ)) = 40 by norm_num, show (51 : ℤ) * 40 / 20 = 102 by norm_num]
      exact channel_40
    · rw [show (((60 : ℤ) : ℚ)) = 60 by norm_num, show (51 : ℤ) * 60 / 20 = 153 by norm_num]
      exact channel_60
    · rw [show (((80 : ℤ) : ℚ)) = 80 by norm_num, show (51 : ℤ) * 80 / 20 = 204 by norm_num]
      exact channel_80
    · have e : fl (((100 : ℤ) : ℚ) / 100) = 1 := by
        rw [show ((100 : ℤ) : ℚ) / 100 = 1 by norm_num, fl_one]
      rw [e, one_mul, show (255 : ℚ) = ((255 : ℕ) : ℚ) by norm_num,
        fl_natCast_small 255 (by norm_num)]
      norm_num
  · exact channel_generic B (51 * B / 20) (51 * B % 20) h0 h1
      (Int.ediv_add_emod (51 * B) 20).symm (by omega) (by omega)

theorem sampleBrightness_float64 : IsFloat64 sampleBrightness := by
  have h := fl_dyadic 3752999689475413 49 (by norm_num) (by norm_num)
  unfold IsFloat64 sampleBrightness
  rw [show ((3752999689475413 : ℤ) : ℚ) = 3752999689475413 by norm_num] at h
  exact h

/-- At the float64 `6.666666666666666` the code's channel is 17, one more than
`floor(255 * B / 100) = 16`. -/
theorem channel_sampleBrightness :
    ⌊fl (fl (sampleBrightness / 100) * 255)⌋ = 17 ∧ ⌊255 * sampleBrightness / 100⌋ = 16 := by
  have h1 : fl (sampleBrightness / 100)
      = (((4803839602528529 : ℤ) : ℚ)) * 2 ^ ((-4 : ℤ) - 52) :=
    fl_eval _ (-4) 4803839602528529 (by norm_num) (by norm_num [sampleBrightness])
      (by norm_num [sampleBrightness]) (by norm_num [sampleBrightness])
      (by norm_num [sampleBrightness])
  have h2 : fl ((((4803839602528529 : ℤ) : ℚ)) * 2 ^ ((-4 : ℤ) - 52) * 255)
      = (((4785074604081152 : ℤ) : ℚ)) * 2 ^ ((4 : ℤ) - 52) :=
    fl_eval _ 4 4785074604081152 (by norm_num) (by norm_num) (by norm_num) (by norm_num)
      (by norm_num)
  constructor
  · rw [h1, h2]
    norm_num
  · rw [Int.floor_eq_iff]
    norm_num [sampleBrightness]

theorem fractions_congr (H K S B : ℚ) (h : hueFraction H = hueFraction K) :
    fractions H S B = fractions K S B := by
  unfold fractions
  rw [h]

theorem RGBA_congr (H K S B : ℚ) (h : hueFraction H = hueFraction K) :
    RGBA H S B = RGBA K S B := by
  unfold RGBA
  rw [fractions_congr H K S B h]

theorem sector_zero : sector 0 = 0 := by
  unfold sector
  rw [hueFraction_zero]
  have h0 : (0 : ℚ) ≤ 1 / 360 := by norm_num
  have a := fl_nonneg h0
  have b := fl_mono h0 (show (1 : ℚ) / 360 ≤ ((1 : ℤ) : ℚ) / 2 ^ 3 by norm_num)
  rw [fl_dyadic 1 3 (by norm_num) (by norm_num)] at b
  have h6 : (0 : ℚ) ≤ fl (1 / 360) * 6 := by linarith
  have c := fl_nonneg h6
  have d := fl_mono h6 (show fl (1 / 360) * 6 ≤ ((3 : ℤ) : ℚ) / 2 ^ 2 by norm_num at b ⊢; linarith)
  rw [fl_dyadic 3 2 (by norm_num) (by norm_num)] at d
  rw [Int.floor_eq_iff]
  constructor
  · simpa using c
  · norm_num at d ⊢; linarith

theorem sector_360 : sector 360 = 5 := by
  unfold sector
  rw [hueFraction_360]
  have h0 : (0 : ℚ) ≤ ((7 : ℤ) : ℚ) / 2 ^ 3 := by norm_num
  have a := fl_mono h0 (show ((7 : ℤ) : ℚ) / 2 ^ 3 ≤ 359 / 360 by norm_num)
  rw [fl_dyadic 7 3 (by norm_num) (by norm_num)] at a
  have b := fl_mono (show (0 : ℚ) ≤ 359 / 360 by norm_num)
    (show (359 : ℚ) / 360 ≤ ((511 : ℤ) : ℚ) / 2 ^ 9 by norm_num)
  rw [fl_dyadic 511 9 (by norm_num) (by norm_num)] at b
  have h21 : (0 : ℚ) ≤ ((21 : ℤ) : ℚ) / 2 ^ 2 := by norm_num
  have c := fl_mono h21
    (show ((21 : ℤ) : ℚ) / 2 ^ 2 ≤ fl (359 / 360) * 6 by norm_num at a ⊢; linarith)
  rw [fl_dyadic 21 2 (by norm_num) (by norm_num)] at c
  have d := fl_mono (show (0 : ℚ) ≤ fl (359 / 360) * 6 by norm_num at a ⊢; linarith)
    (show fl (359 / 360) * 6 ≤ ((1533 : ℤ) : ℚ) / 2 ^ 8 by norm_num at b ⊢; linarith)
  rw [fl_dyadic 1533 8 (by norm_num) (by norm_num)] at d
  rw [Int.floor_eq_iff]
  constructor
  · norm_num at c ⊢; linarith
  · norm_num at d ⊢; linarith

theorem fractions_red_of_sector (H S B : ℚ) (h : sector H = 0 ∨ sector H = 5) :
    (fractions H S B).1 = fl (B / 100) := by
  have hs : ⌊fl (hueFraction H * 6)⌋ = sector H := rfl
  unfold fractions
  simp only [hs]
  rcases h with h | h <;> rw [h] <;> simp [rgbFractions]

/-- The red channel of a valid colour in sector 0 or 5 is the floor of the float64 product
`(B / 100) * 255`. -/
theorem RGBA_red_of_sector (H S B : ℚ) (hf : IsFloat64 H) (hH : 0 ≤ H ∧ H ≤ 360)
    (hS : 0 ≤ S ∧ S ≤ 100) (hB : 0 ≤ B ∧ B ≤ 100) (h : sector H = 0 ∨ sector H = 5) :
    ∃ g b, RGBA H S B = some (⌊fl (fl (B / 100) * 255)⌋.toNat, g, b, 1) := by
  obtain ⟨_, h2, h3⟩ := fractions_unit H S B hf hH hS hB
  obtain ⟨hg, _⟩ := channel_in_range h2
  obtain ⟨hb, _⟩ := channel_in_range h3
  refine ⟨_, _, RGBA_of_channels H S B _ _ _ ?_ hg hb⟩
  rw [fractions_red_of_sector H S B h]
  exact (channel_in_range (percent_unit B hB.1 hB.2)).1

theorem isFloat64_zero : IsFloat64 0 := fl_zero

theorem isFloat64_360 : IsFloat64 360 := by
  simpa using isFloat64_int 360 (by norm_num)

theorem rgba_total_in_range_witness :
    IsFloat64 sampleBrightness ∧ (0 ≤ sampleBrightness ∧ sampleBrightness ≤ 360) ∧
      (0 ≤ (133 / 4 : ℚ) ∧ (133 / 4 : ℚ) ≤ 100) ∧
      (0 ≤ sampleBrightness ∧ sampleBrightness ≤ 100) ∧
      0 ≤ sector sampleBrightness ∧ sector sampleBrightness ≤ 5 ∧
      fractions sampleBrightness (133 / 4) sampleBrightness ≠ (256, 256, 256) ∧
      ∃ r g b, RGBA sampleBrightness (133 / 4) sampleBrightness = some (r, g, b, 1) ∧
        r ≤ 255 ∧ g ≤ 255 ∧ b ≤ 255 :=
  ⟨sampleBrightness_float64, by norm_num [sampleBrightness], by norm_num,
    by norm_num [sampleBrightness],
    rgba_total_in_range sampleBrightness (133 / 4) sampleBrightness sampleBrightness_float64
      (by norm_num [sampleBrightness]) (by norm_num) (by norm_num [sampleBrightness])⟩

/-! ## Hue boundaries and grey -/

/-- C14, as stated, fails: at `H = 360`, `S = 70` and the float64 `B = 6.666666666666666`
the red channel is 17, while `floor(255 * B / 100)` is 16. -/
theorem rgba_boundary_red_not_exact_floor :
    (0 ≤ sampleBrightness ∧ sampleBrightness ≤ 100) ∧ IsFloat64 sampleBrightness ∧
      ⌊255 * sampleBrightness / 100⌋ = 16 ∧
      ∃ g b, RGBA 360 70 sampleBrightness = some (17, g, b, 1) := by
  refine ⟨by norm_num [sampleBrightness], sampleBrightness_float64,
    channel_sampleBrightness.2, ?_⟩
  obtain ⟨g, b, h⟩ := RGBA_red_of_sector 360 70 sampleBrightness isFloat64_360
    (by norm_num) (by norm_num) (by norm_num [sampleBrightness]) (Or.inr sector_360)
  rw [channel_sampleBrightness.1] at h
  exact ⟨g, b, h⟩

/-- C14, amended: for all float64 `S`, `B` of `[0, 100]`, `RGBA` at `H = 0` equals `RGBA` at
`H = 1`, and `RGBA` at `H = 360` equals `RGBA` at `H = 359`; the first falls in sector 0, the
second in sector 5, and both have as red channel the floor of the float64 product
`(B / 100) * 255`, which is `floor(255 * B / 100)` whenever `B` is an integer. -/
theorem rgba_hue_boundaries (S B : ℚ) (hS : 0 ≤ S ∧ S ≤ 100) (hB : 0 ≤ B ∧ B ≤ 100) :
    RGBA 0 S B = RGBA 1 S B ∧ RGBA 360 S B = RGBA 359 S B ∧ sector 0 = 0 ∧ sector 360 = 5 ∧
      (∃ g b, RGBA 0 S B = some (⌊fl (fl (B / 100) * 255)⌋.toNat, g, b, 1)) ∧
      (∃ g b, RGBA 360 S B = some (⌊fl (fl (B / 100) * 255)⌋.toNat, g, b, 1)) ∧
      ∀ n : ℤ, B = n → ⌊fl (fl (B / 100) * 255)⌋ = 255 * n / 100 := by
  refine ⟨RGBA_congr 0 1 S B (hueFraction_zero.trans hueFraction_one.symm),
    RGBA_congr 360 359 S B (hueFraction_360.trans hueFraction_359.symm), sector_zero,
    sector_360,
    RGBA_red_of_sector 0 S B isFloat64_zero (by norm_num) hS hB (Or.inl sector_zero),
    RGBA_red_of_sector 360 S B isFloat64_360 (by norm_num) hS hB (Or.inr sector_360), ?_⟩
  intro n hn
  subst hn
  exact channel_value n (by exact_mod_cast hB.1) (by exact_mod_cast hB.2)

theorem rgba_hue_boundaries_witness :
    (0 ≤ (70 : ℚ) ∧ (70 : ℚ) ≤ 100) ∧ (0 ≤ (60 : ℚ) ∧ (60 : ℚ) ≤ 100) ∧
      RGBA 0 70 60 = RGBA 1 70 60 ∧ RGBA 360 70 60 = RGBA 359 70 60 ∧
      sector 0 = 0 ∧ sector 360 = 5 ∧
      (∃ g b, RGBA 0 70 60 = some (⌊fl (fl ((60 : ℚ) / 100) * 255)⌋.toNat, g, b, 1)) ∧
      (∃ g b, RGBA 360 70 60 = some (⌊fl (fl ((60 : ℚ) / 100) * 255)⌋.toNat, g, b, 1)) ∧
      ⌊fl (fl ((60 : ℚ) / 100) * 255)⌋ = 255 * 60 / 100 :=
  ⟨by norm_num, by norm_num,
    (rgba_hue_boundaries 70 60 (by norm_num) (by norm_num)).1,
    (rgba_hue_boundaries 70 60 (by norm_num) (by norm_num)).2.1,
    (rgba_hue_boundaries 70 60 (by norm_num) (by norm_num)).2.2.1,
    (rgba_hue_boundaries 70 60 (by norm_num) (by norm_num)).2.2.2.1,
    (rgba_hue_boundaries 70 60 (by norm_num) (by norm_num)).2.2.2.2.1,
    (rgba_hue_boundaries 70 60 (by norm_num) (by norm_num)).2.2.2.2.2.1,
    (rgba_hue_boundaries 70 60 (by norm_num) (by norm_num)).2.2.2.2.2.2 60 (by norm_num)⟩

theorem fractions_zero_saturation (H B : ℚ) (hf : IsFloat64 H) (hH : 0 ≤ H ∧ H ≤ 360) :
    fractions H 0 B = (fl (B / 100), fl (B / 100), fl (B / 100)) := by
  obtain ⟨hs0, hs5, _, _⟩ := sector_bounds H hf hH.1 hH.2
  have hs : ⌊fl (hueFraction H * 6)⌋ = sector H := rfl
  unfold fractions
  simp only [hs, zero_div, fl_zero, mul_zero, sub_zero, fl_one, mul_one, fl_idem]
  have h : sector H = 0 ∨ sector H = 1 ∨ sector H = 2 ∨ sector H = 3 ∨ sector H = 4 ∨
      sector H = 5 := by omega
  rcases h with h | h | h | h | h | h <;> rw [h] <;> simp [rgbFractions]

/-- C15, as stated, fails: `RGBA` of `H = 0`, `S = 0` and the float64
`B = 6.666666666666666` returns `(17, 17, 17)`, while `floor(255 * B / 100)` is 16. -/
theorem rgba_grey_not_exact_floor :
    (0 ≤ sampleBrightness ∧ sampleBrightness ≤ 100) ∧ IsFloat64 sampleBrightness ∧
      ⌊255 * sampleBrightness / 100⌋ = 16 ∧
      RGBA 0 0 sampleBrightness = some (17, 17, 17, 1) := by
  refine ⟨by norm_num [sampleBrightness], sampleBrightness_float64,
    channel_sampleBrightness.2, ?_⟩
  have hf := fractions_zero_saturation 0 sampleBrightness isFloat64_zero (by norm_num)
  have hc : toUint32 ⌊fl (fl (sampleBrightness / 100) * 255)⌋ = some 17 := by
    rw [channel_sampleBrightness.1]; rfl
  apply RGBA_of_channels <;> rw [hf] <;> exact hc

/-- C15, amended: zero saturation converts to grey: for every float64 `H` of `[0, 360]` and
every `B` of `[0, 100]`, `RGBA` of `(H, 0, B)` returns `r = g = b`, the floor of the float64
product `(B / 100) * 255`, which is `floor(255 * B / 100)` whenever `B` is an integer. -/
theorem rgba_zero_saturation_grey (H B : ℚ) (hf : IsFloat64 H) (hH : 0 ≤ H ∧ H ≤ 360)
    (hB : 0 ≤ B ∧ B ≤ 100) :
    RGBA H 0 B = some (⌊fl (fl (B / 100) * 255)⌋.toNat, ⌊fl (fl (B / 100) * 255)⌋.toNat,
        ⌊fl (fl (B / 100) * 255)⌋.toNat, 1) ∧
      ∀ n : ℤ, B = n → ⌊fl (fl (B / 100) * 255)⌋ = 255 * n / 100 := by
  have hfr := fractions_zero_saturation H B hf hH
  have hc := (channel_in_range (percent_unit B hB.1 hB.2)).1
  constructor
  · apply RGBA_of_channels <;> rw [hfr] <;> exact hc
  · intro n hn
    subst hn
    exact channel_value n (by exact_mod_cast hB.1) (by exact_mod_cast hB.2)

theorem rgba_zero_saturation_grey_witness :
    IsFloat64 0 ∧ (0 ≤ (0 : ℚ) ∧ (0 : ℚ) ≤ 360) ∧ (0 ≤ (100 : ℚ) ∧ (100 : ℚ) ≤ 100) ∧
      RGBA 0 0 100 = some (255, 255, 255, 1) := by
  have h := rgba_zero_saturation_grey 0 100 isFloat64_zero (by norm_num) (by norm_num)
  have hk : ⌊fl (fl ((100 : ℚ) / 100) * 255)⌋ = 255 := by
    have := h.2 100 (by norm_num)
    rw [this]; norm_num
  have h1 := h.1
  rw [hk] at h1
  exact ⟨isFloat64_zero, by norm_num, by norm_num, h1⟩

end Randomcolor
